import Mathlib

/-!
Shallow embedding of the JPEG container marker scanner and save-side
configuration resolver of `src/PIL/JpegImagePlugin.py` (Pillow, Python 2 era).

Byte streams are modelled as `List Nat` (each element a byte value), Python
exceptions as an explicit error type threaded through `Except`.  Helper
functions from `PIL._binary` (`i8`, `o8`, `i16be`) and
`PIL.ImageFile._safe_read`, which are part of the repository but not included
in the sources, are modelled from the spec where noted.
-/

deriving instance DecidableEq for Except

namespace Jpeg

/-- The Python exception kinds reachable in the embedded code paths. -/
inductive PyErr where
  | syntaxError (msg : String)
  | valueError (msg : String)
  | ioError (msg : String)
  | indexError
  | structError
  | overflowError
  | typeError
  | attributeError
  deriving DecidableEq

/-- `l[i]` on a Python byte string: `some` byte or out-of-range. -/
def byteAt : List Nat → Nat → Option Nat
  | [], _ => none
  | b :: _, 0 => some b
  | _ :: t, n + 1 => byteAt t n

/-- `byteAt` with default 0, used in theorem statements under length
hypotheses that make the access in-range. -/
def byteAtD (l : List Nat) (i : Nat) : Nat :=
  (byteAt l i).getD 0

/-- Modelled from the spec: `_binary.i16be(c, o)` reads a 2-byte big-endian
integer at offset `o`; `struct.unpack` fails when fewer than 2 bytes remain. -/
def i16at (l : List Nat) (o : Nat) : Except PyErr Nat :=
  match byteAt l o, byteAt l (o + 1) with
  | some a, some b => .ok (a * 256 + b)
  | _, _ => .error .structError

/-- Modelled from the spec: `struct.pack(">H", n)` emits 2 big-endian bytes
(the call sites keep `n` within 0..65535). -/
def pack16 (n : Nat) : List Nat :=
  [n / 256 % 256, n % 256]

/-- Boolean lexicographic order on byte strings: Python comparison of `bytes`
values (a strict prefix sorts first). -/
def lexLe : List Nat → List Nat → Bool
  | [], _ => true
  | _ :: _, [] => false
  | a :: as, b :: bs => if a < b then true else if b < a then false else lexLe as bs

/-- The propositional form of `lexLe`, used with `List.insertionSort`. -/
def bytesLe (a b : List Nat) : Prop :=
  lexLe a b = true

instance : DecidableRel bytesLe := fun a b => by
  unfold bytesLe; infer_instance

theorem lexLe_total (a b : List Nat) : lexLe a b = true ∨ lexLe b a = true := by
  induction a generalizing b with
  | nil => exact Or.inl rfl
  | cons x as ih =>
    cases b with
    | nil => exact Or.inr rfl
    | cons y bs =>
      by_cases hxy : x < y
      · left; simp [lexLe, hxy]
      · by_cases hyx : y < x
        · right; simp [lexLe, hyx, Nat.lt_asymm hyx]
        · have hxe : x = y := Nat.le_antisymm (Nat.le_of_not_lt hyx) (Nat.le_of_not_lt hxy)
          subst hxe
          simpa [lexLe] using ih bs

theorem lexLe_trans {a b c : List Nat} (h₁ : lexLe a b = true) (h₂ : lexLe b c = true) :
    lexLe a c = true := by
  induction a generalizing b c with
  | nil => rfl
  | cons x as ih =>
    cases b with
    | nil => simp [lexLe] at h₁
    | cons y bs =>
      cases c with
      | nil => simp [lexLe] at h₂
      | cons z cs =>
        simp only [lexLe] at h₁ h₂ ⊢
        by_cases hxy : x < y
        · by_cases hyz : y < z
          · simp [Nat.lt_trans hxy hyz]
          · by_cases hzy : z < y
            · simp only [if_neg hyz, if_pos hzy] at h₂; cases h₂
            · have : y = z := Nat.le_antisymm (Nat.le_of_not_lt hzy) (Nat.le_of_not_lt hyz)
              subst this; simp [hxy]
        · by_cases hyx : y < x
          · simp only [if_neg hxy, if_pos hyx] at h₁; cases h₁
          · have hxe : x = y := Nat.le_antisymm (Nat.le_of_not_lt hyx) (Nat.le_of_not_lt hxy)
            subst hxe
            simp only [Nat.lt_irrefl, if_neg (Nat.lt_irrefl x)] at h₁
            by_cases hyz : x < z
            · simp [hyz]
            · by_cases hzy : z < x
              · simp only [if_neg hyz, if_pos hzy] at h₂; cases h₂
              · have : x = z := Nat.le_antisymm (Nat.le_of_not_lt hzy) (Nat.le_of_not_lt hyz)
                subst this
                simp only [Nat.lt_irrefl, if_neg (Nat.lt_irrefl x)] at h₂ ⊢
                exact ih h₁ h₂

theorem lexLe_antisymm {a b : List Nat} (h₁ : lexLe a b = true) (h₂ : lexLe b a = true) :
    a = b := by
  induction a generalizing b with
  | nil =>
    cases b with
    | nil => rfl
    | cons y bs => simp [lexLe] at h₂
  | cons x as ih =>
    cases b with
    | nil => simp [lexLe] at h₁
    | cons y bs =>
      simp only [lexLe] at h₁ h₂
      by_cases hxy : x < y
      · simp only [if_neg (Nat.lt_asymm hxy), if_pos hxy] at h₂
        cases h₂
      · by_cases hyx : y < x
        · simp only [if_neg hxy, if_pos hyx] at h₁; cases h₁
        · have hxe : x = y := Nat.le_antisymm (Nat.le_of_not_lt hyx) (Nat.le_of_not_lt hxy)
          subst hxe
          simp only [if_neg (Nat.lt_irrefl x)] at h₁ h₂
          rw [ih h₁ h₂]

instance : IsTotal (List Nat) bytesLe := ⟨lexLe_total⟩

instance : IsTrans (List Nat) bytesLe := ⟨fun _ _ _ => lexLe_trans⟩

instance : IsAntisymm (List Nat) bytesLe := ⟨fun _ _ => lexLe_antisymm⟩

theorem lexLe_append_same (p : List Nat) {a b : List Nat} :
    lexLe (p ++ a) (p ++ b) = lexLe a b := by
  induction p with
  | nil => rfl
  | cons x xs ih => simp [lexLe, ih]

theorem lexLe_cons_of_lt {i j : Nat} (h : i < j) (x y : List Nat) :
    lexLe (i :: x) (j :: y) = true := by
  simp [lexLe, h]

/-- `array.array("b", bytes)`: reinterpret one byte as a signed char. -/
def toSigned (b : Nat) : Int :=
  if b < 128 then (b : Int) else (b : Int) - 256

/-- Update-or-append on an association list, modelling Python dict item
assignment (`d[k] = v`). -/
def updAssoc {κ ν : Type} [DecidableEq κ] : List (κ × ν) → κ → ν → List (κ × ν)
  | [], k, v => [(k, v)]
  | (k', v') :: t, k, v => if k' = k then (k, v) :: t else (k', v') :: updAssoc t k v

/-- Python `d.has_key(k) and d[k]` lookup on an association list. -/
def lookupA {κ ν : Type} [DecidableEq κ] : List (κ × ν) → κ → Option ν
  | [], _ => none
  | (k', v') :: t, k => if k' = k then some v' else lookupA t k

/-- The `info` metadata mapping populated by the segment handlers. An outer
`none` means the key was never written; for `icc_profile` the inner `Option`
is the stored value (`None` on reassembly mismatch). -/
structure Info where
  jfif : Option Nat := none
  jfif_version : Option (Nat × Nat) := none
  dpi : Option (Nat × Nat) := none
  jfif_unit : Option Nat := none
  jfif_density : Option (Nat × Nat) := none
  exif : Option (List Nat) := none
  flashpix : Option (List Nat) := none
  adobe : Option Nat := none
  adobe_transform : Option Nat := none
  icc_profile : Option (Option (List Nat)) := none
  progressive : Bool := false
  deriving DecidableEq

/-- The mutable parse context of `JpegImageFile._open` (the attributes the
handlers read and write).  `icclist = none` models Python `None` after the
one-shot ICC fixup. -/
structure PState where
  mode : String := ""
  sizeW : Nat := 0
  sizeH : Nat := 0
  bits : Nat := 0
  layersN : Nat := 0
  layer : List (Nat × Nat × Nat × Nat) := []
  quantization : List (Nat × List Int) := []
  app : List (String × List Nat) := []
  applist : List (String × List Nat) := []
  icclist : Option (List (List Nat)) := some []
  info : Info := {}
  deriving DecidableEq

/-- The attribute values set up at the start of `_open`. -/
def initState : PState := {}

/-- `b"JFIF"` -/
def jfifSig : List Nat := [74, 70, 73, 70]

/-- `b"Exif\0"` -/
def exifSig : List Nat := [69, 120, 105, 102, 0]

/-- `b"FPXR\0"` -/
def fpxrSig : List Nat := [70, 80, 88, 82, 0]

/-- `b"ICC_PROFILE\0"` (12 bytes) -/
def iccSig : List Nat := [73, 67, 67, 95, 80, 82, 79, 70, 73, 76, 69, 0]

/-- `b"Adobe"` -/
def adobeSig : List Nat := [65, 100, 111, 98, 101]

/-- The ICC fragment fixup performed inside `SOF` when `self.icclist` is
non-empty: sort the raw APP2 payloads (Python sorts byte strings
lexicographically), require the total-count byte (offset 13) of the first
sorted fragment to equal the number of fragments, and concatenate the
payloads after their 14-byte headers; on mismatch the profile is `None`.
Reading byte 13 of a fragment shorter than 14 bytes is an `IndexError`. -/
def fixupICC (l : List (List Nat)) : Except PyErr (Option (List Nat)) :=
  match List.insertionSort bytesLe l with
  | [] => .error .indexError
  | f :: rest =>
    match byteAt f 13 with
    | none => .error .indexError
    | some c =>
      .ok (if c = l.length then
             some (((f :: rest).map (fun p => p.drop 14)).flatten)
           else none)

/-- The `APP` handler, applied to the already-read segment payload `s`.
Dispatches on marker id and payload prefix exactly as the `if`/`elif` chain
in the source. -/
def APP (st : PState) (marker : Nat) (s : List Nat) : Except PyErr PState :=
  let appKey := "APP" ++ toString (marker % 16)
  let st := { st with app := updAssoc st.app appKey s,
                      applist := st.applist ++ [(appKey, s)] }
  if marker = 0xFFE0 ∧ s.take 4 = jfifSig then
    match i16at s 5 with
    | .error e => .error e
    | .ok version =>
      let info1 := { st.info with jfif := some version,
                                  jfif_version := some (version / 256, version % 256) }
      -- try: i8(s[7]); i16(s, 8), i16(s, 10) -- any failure is swallowed
      if 12 ≤ s.length then
        let unit := byteAtD s 7
        let density := (byteAtD s 8 * 256 + byteAtD s 9, byteAtD s 10 * 256 + byteAtD s 11)
        .ok { st with info :=
          { info1 with dpi := if unit = 1 then some density else info1.dpi,
                       jfif_unit := some unit,
                       jfif_density := some density } }
      else
        .ok { st with info := info1 }
  else if marker = 0xFFE1 ∧ s.take 5 = exifSig then
    .ok { st with info := { st.info with exif := some s } }
  else if marker = 0xFFE2 ∧ s.take 5 = fpxrSig then
    .ok { st with info := { st.info with flashpix := some s } }
  else if marker = 0xFFE2 ∧ s.take 12 = iccSig then
    match st.icclist with
    | some l => .ok { st with icclist := some (l ++ [s]) }
    | none => .error .attributeError -- None.append
  else if marker = 0xFFEE ∧ s.take 5 = adobeSig then
    match i16at s 5 with
    | .error e => .error e
    | .ok v =>
      let info1 := { st.info with adobe := some v }
      -- try: adobe_transform = i8(s[1]) -- IndexError is swallowed
      match byteAt s 1 with
      | none => .ok { st with info := info1 }
      | some t => .ok { st with info := { info1 with adobe_transform := some t } }
  else
    .ok st

/-- The `COM` handler applied to the already-read payload. -/
def COM (st : PState) (s : List Nat) : Except PyErr PState :=
  .ok { st with app := updAssoc st.app "COM" s,
                applist := st.applist ++ [("COM", s)] }

/-- The component-descriptor loop at the end of `SOF`:
`for i in range(6, len(s), 3)` building `(id, vsamp, hsamp, qtable)`; a
trailing group shorter than 3 bytes raises `IndexError` on `t[1]`/`t[2]`. -/
def compLoop : List Nat → Except PyErr (List (Nat × Nat × Nat × Nat))
  | [] => .ok []
  | [_] => .error .indexError
  | [_, _] => .error .indexError
  | a :: b :: c :: rest =>
    match compLoop rest with
    | .error e => .error e
    | .ok cs => .ok ((a, b / 16, b % 16, c) :: cs)

/-- The `SOF` (frame header) handler applied to the already-read payload. -/
def SOF (st : PState) (marker : Nat) (s : List Nat) : Except PyErr PState :=
  match i16at s 3 with
  | .error e => .error e
  | .ok w =>
    match i16at s 1 with
    | .error e => .error e
    | .ok h =>
      match byteAt s 0 with
      | none => .error .indexError
      | some bits =>
        if bits ≠ 8 then
          .error (.syntaxError ("cannot handle " ++ toString bits ++ "-bit layers"))
        else
          match byteAt s 5 with
          | none => .error .indexError
          | some layers =>
            match (if layers = 1 then some "L"
                   else if layers = 3 then some "RGB"
                   else if layers = 4 then some "CMYK"
                   else none) with
            | none =>
              .error (.syntaxError ("cannot handle " ++ toString layers ++ "-layer images"))
            | some mode =>
              let prog : Bool :=
                marker = 0xFFC2 ∨ marker = 0xFFC6 ∨ marker = 0xFFCA ∨ marker = 0xFFCE
              let st1 := { st with sizeW := w, sizeH := h, bits := bits,
                                   layersN := layers, mode := mode,
                                   info := if prog then { st.info with progressive := true }
                                           else st.info }
              let st2e : Except PyErr PState :=
                match st1.icclist with
                | some (f :: fs) =>
                  match fixupICC (f :: fs) with
                  | .error e => .error e
                  | .ok r =>
                    .ok { st1 with info := { st1.info with icc_profile := some r },
                                   icclist := none }
                | _ => .ok st1 -- `if self.icclist:` false on None and []
              match st2e with
              | .error e => .error e
              | .ok st2 =>
                match compLoop (s.drop 6) with
                | .error e => .error e
                | .ok cs => .ok { st2 with layer := st2.layer ++ cs }

/-- The `DQT` table loop over the remaining payload `s`: a short remainder is
a `SyntaxError`; a non-zero precision nibble abandons the rest of the segment
silently; otherwise 64 coefficients are stored at slot `v & 15`. -/
def dqtLoop (q : List (Nat × List Int)) (s : List Nat) : Except PyErr (List (Nat × List Int)) :=
  if hs : s = [] then .ok q
  else if s.length < 65 then .error (.syntaxError "bad quantization table marker")
  else
    let v := s.headD 0
    if v / 16 = 0 then
      dqtLoop (updAssoc q (v % 16) (((s.drop 1).take 64).map toSigned)) (s.drop 65)
    else
      .ok q -- 16-bit tables: abandon the remainder of this segment
termination_by s.length
decreasing_by
  have : s.length ≠ 0 := fun h0 => hs (List.length_eq_zero.mp h0)
  simp only [List.length_drop]
  omega

/-- The `DQT` handler applied to the already-read payload. -/
def DQT (st : PState) (s : List Nat) : Except PyErr PState :=
  match dqtLoop st.quantization s with
  | .error e => .error e
  | .ok q => .ok { st with quantization := q }

/-- The handler variants appearing in the `MARKER` table. -/
inductive HKind where
  | hSkip
  | hAPP
  | hCOM
  | hSOF
  | hDQT
  deriving DecidableEq

/-- The static JPEG marker table: code to (name, description, handler). A
code outside the table yields `none`. -/
def MARKER (i : Nat) : Option (String × String × Option HKind) :=
  match i with
  | 0xFFC0 => some ("SOF0", "Baseline DCT", some .hSOF)
  | 0xFFC1 => some ("SOF1", "Extended Sequential DCT", some .hSOF)
  | 0xFFC2 => some ("SOF2", "Progressive DCT", some .hSOF)
  | 0xFFC3 => some ("SOF3", "Spatial lossless", some .hSOF)
  | 0xFFC4 => some ("DHT", "Define Huffman table", some .hSkip)
  | 0xFFC5 => some ("SOF5", "Differential sequential DCT", some .hSOF)
  | 0xFFC6 => some ("SOF6", "Differential progressive DCT", some .hSOF)
  | 0xFFC7 => some ("SOF7", "Differential spatial", some .hSOF)
  | 0xFFC8 => some ("JPG", "Extension", none)
  | 0xFFC9 => some ("SOF9", "Extended sequential DCT (AC)", some .hSOF)
  | 0xFFCA => some ("SOF10", "Progressive DCT (AC)", some .hSOF)
  | 0xFFCB => some ("SOF11", "Spatial lossless DCT (AC)", some .hSOF)
  | 0xFFCC => some ("DAC", "Define arithmetic coding conditioning", some .hSkip)
  | 0xFFCD => some ("SOF13", "Differential sequential DCT (AC)", some .hSOF)
  | 0xFFCE => some ("SOF14", "Differential progressive DCT (AC)", some .hSOF)
  | 0xFFCF => some ("SOF15", "Differential spatial (AC)", some .hSOF)
  | 0xFFD0 => some ("RST0", "Restart 0", none)
  | 0xFFD1 => some ("RST1", "Restart 1", none)
  | 0xFFD2 => some ("RST2", "Restart 2", none)
  | 0xFFD3 => some ("RST3", "Restart 3", none)
  | 0xFFD4 => some ("RST4", "Restart 4", none)
  | 0xFFD5 => some ("RST5", "Restart 5", none)
  | 0xFFD6 => some ("RST6", "Restart 6", none)
  | 0xFFD7 => some ("RST7", "Restart 7", none)
  | 0xFFD8 => some ("SOI", "Start of image", none)
  | 0xFFD9 => some ("EOI", "End of image", none)
  | 0xFFDA => some ("SOS", "Start of scan", some .hSkip)
  | 0xFFDB => some ("DQT", "Define quantization table", some .hDQT)
  | 0xFFDC => some ("DNL", "Define number of lines", some .hSkip)
  | 0xFFDD => some ("DRI", "Define restart interval", some .hSkip)
  | 0xFFDE => some ("DHP", "Define hierarchical progression", some .hSOF)
  | 0xFFDF => some ("EXP", "Expand reference component", some .hSkip)
  | 0xFFE0 => some ("APP0", "Application segment 0", some .hAPP)
  | 0xFFE1 => some ("APP1", "Application segment 1", some .hAPP)
  | 0xFFE2 => some ("APP2", "Application segment 2", some .hAPP)
  | 0xFFE3 => some ("APP3", "Application segment 3", some .hAPP)
  | 0xFFE4 => some ("APP4", "Application segment 4", some .hAPP)
  | 0xFFE5 => some ("APP5", "Application segment 5", some .hAPP)
  | 0xFFE6 => some ("APP6", "Application segment 6", some .hAPP)
  | 0xFFE7 => some ("APP7", "Application segment 7", some .hAPP)
  | 0xFFE8 => some ("APP8", "Application segment 8", some .hAPP)
  | 0xFFE9 => some ("APP9", "Application segment 9", some .hAPP)
  | 0xFFEA => some ("APP10", "Application segment 10", some .hAPP)
  | 0xFFEB => some ("APP11", "Application segment 11", some .hAPP)
  | 0xFFEC => some ("APP12", "Application segment 12", some .hAPP)
  | 0xFFED => some ("APP13", "Application segment 13", some .hAPP)
  | 0xFFEE => some ("APP14", "Application segment 14", some .hAPP)
  | 0xFFEF => some ("APP15", "Application segment 15", some .hAPP)
  | 0xFFF0 => some ("JPG0", "Extension 0", none)
  | 0xFFF1 => some ("JPG1", "Extension 1", none)
  | 0xFFF2 => some ("JPG2", "Extension 2", none)
  | 0xFFF3 => some ("JPG3", "Extension 3", none)
  | 0xFFF4 => some ("JPG4", "Extension 4", none)
  | 0xFFF5 => some ("JPG5", "Extension 5", none)
  | 0xFFF6 => some ("JPG6", "Extension 6", none)
  | 0xFFF7 => some ("JPG7", "Extension 7", none)
  | 0xFFF8 => some ("JPG8", "Extension 8", none)
  | 0xFFF9 => some ("JPG9", "Extension 9", none)
  | 0xFFFA => some ("JPG10", "Extension 10", none)
  | 0xFFFB => some ("JPG11", "Extension 11", none)
  | 0xFFFC => some ("JPG12", "Extension 12", none)
  | 0xFFFD => some ("JPG13", "Extension 13", none)
  | 0xFFFE => some ("COM", "Comment", some .hCOM)
  | _ => none

/-- The common prefix of all length-prefixed handlers: read the 2-byte
big-endian length, subtract 2, and read that many payload bytes from the
stream.  `i16` of a short read is a `struct.error`.
Modelled from the spec: `ImageFile._safe_read` makes a short payload read a
fail condition (insufficient data); a length field below 2 reads 0 bytes. -/
def readSeg (l : List Nat) : Except PyErr (List Nat × List Nat) :=
  match l with
  | a :: b :: t =>
    let n := a * 256 + b - 2
    if t.length < n then .error (.ioError "insufficient data")
    else .ok (t.take n, t.drop n)
  | _ => .error .structError

theorem readSeg_rest_le {l p r : List Nat} (h : readSeg l = .ok (p, r)) :
    r.length + 2 ≤ l.length := by
  match l with
  | [] => cases h
  | [a] => cases h
  | a :: b :: t =>
    simp only [readSeg] at h
    split at h
    · cases h
    · cases h
      simp only [List.length_cons, List.length_drop]
      omega

/-- Dispatch a handler variant on the already-read payload. -/
def runHandler (k : HKind) (st : PState) (i : Nat) (s : List Nat) : Except PyErr PState :=
  match k with
  | .hSkip => .ok st -- payload discarded
  | .hAPP => APP st i s
  | .hCOM => COM st s
  | .hSOF => SOF st i s
  | .hDQT => DQT st s

/-- The decode descriptor: `("jpeg", (0, 0) + size, 0, (rawmode, ""))`. -/
def Tile : Type := String × (Nat × Nat × Nat × Nat) × Nat × (String × String)

/-- Build the final tile at the start-of-scan marker, with the CMYK raw mode
remapped to the Adobe-polarity-inverted variant. -/
def mkDone (st : PState) : PState × Tile :=
  let rawmode := if st.mode = "CMYK" then "CMYK;I" else st.mode
  (st, ("jpeg", (0, 0, st.sizeW, st.sizeH), 0, (rawmode, "")))

/-- The main marker-scanner loop of `_open`, structured on a fuel argument
for recursion.  `pfx` is the byte already in hand (the first of the 2-byte
candidate), `stream` the unread bytes.  An empty read where a byte is
expected makes the following `i16` a `struct.error`.  Every loop iteration
consumes at least one stream byte and one unit of fuel, so with the fuel
`scan` supplies (stream length + 1) the fuel-exhaustion branch is
unreachable; its value is chosen to coincide with the end-of-stream
behavior. -/
def scanF : Nat → PState → Nat → List Nat → Except PyErr (PState × Tile)
  | 0, _, _, _ => .error .structError
  | _ + 1, _, _, [] => .error .structError
  | fuel + 1, st, pfx, b :: rest =>
    let i := pfx * 256 + b
    match MARKER i with
    | some (_, _, some k) =>
      readSeg rest >>= fun pr =>
      runHandler k st i pr.1 >>= fun st' =>
      if i = 0xFFDA then .ok (mkDone st')
      else if pr.2 = [] then .error .structError
      else scanF fuel st' (pr.2.headD 0) pr.2.tail
    | some (_, _, none) =>
      if i = 0xFFDA then .ok (mkDone st)
      else if rest = [] then .error .structError
      else scanF fuel st (rest.headD 0) rest.tail
    | none =>
      if i = 0 ∨ i = 65535 then
        scanF fuel st 255 rest -- padded marker or junk; resynchronize on 0xFF
      else
        .error (.syntaxError "no marker found")

/-- The scanner loop on a given pending byte and stream. -/
def scan (st : PState) (pfx : Nat) (stream : List Nat) : Except PyErr (PState × Tile) :=
  scanF (stream.length + 1) st pfx stream

/-- `JpegImageFile._open`: the stream must start with 0xFF, then the scanner
loop runs with that byte pending. -/
def openJpeg (stream : List Nat) : Except PyErr (PState × Tile) :=
  match stream with
  | [] => .error .indexError
  | b :: rest =>
    if b ≠ 255 then .error (.syntaxError "not a JPEG file")
    else scan initState b rest

/-! ## Save path -/

/-- The `RAWMODE` save table: color mode to raw pixel-mode tag. -/
def RAWMODE (m : String) : Option String :=
  if m = "1" then some "L"
  else if m = "L" then some "L"
  else if m = "RGB" then some "RGB"
  else if m = "RGBA" then some "RGB"
  else if m = "RGBX" then some "RGB"
  else if m = "CMYK" then some "CMYK;I" -- assume adobe conventions
  else if m = "YCbCr" then some "YCbCr"
  else none

/-- The fixed 64-entry zig-zag permutation table. -/
def zigzag_index : List Nat :=
  [ 0,  1,  5,  6, 14, 15, 27, 28,
    2,  4,  7, 13, 16, 26, 29, 42,
    3,  8, 12, 17, 25, 30, 41, 43,
    9, 11, 18, 24, 31, 40, 44, 53,
   10, 19, 23, 32, 39, 45, 52, 54,
   20, 22, 33, 38, 46, 51, 55, 60,
   21, 34, 37, 47, 50, 56, 59, 61,
   35, 36, 48, 49, 57, 58, 62, 63]

/-- The `samplings` table mapping the first three components' sampling
factors to a subsampling code (`dict.get` default -1). -/
def samplingsGet (t : Nat × Nat × Nat × Nat × Nat × Nat) : Int :=
  if t = (1, 1, 1, 1, 1, 1) then 0
  else if t = (2, 1, 1, 1, 1, 1) then 1
  else if t = (2, 2, 1, 1, 1, 1) then 2
  else -1

/-- `[table[i] for i in zigzag_index]`: reorder one table through the
zig-zag permutation; an index past the end of `table` is an `IndexError`. -/
def reorderZZ (t : List Int) : Except PyErr (List Int) :=
  zigzag_index.mapM (fun i =>
    match t.get? i with
    | some v => Except.ok v
    | none => Except.error PyErr.indexError)

/-- `convert_dict_qtables`: keep only the keys `0 .. len(d)-1` that are
present, in increasing key order, and reorder each kept table through the
zig-zag permutation. -/
def convert_dict_qtables (d : List (Nat × List Int)) : Except PyErr (List (List Int)) :=
  ((List.range d.length).filterMap (fun k => lookupA d k)).mapM reorderZZ

/-- The image data the save path reads: mode, origin format, frame
components, and the quantization store (absent when the attribute was never
created). -/
structure SaveIm where
  mode : String
  format : Option String
  layer : List (Nat × Nat × Nat × Nat)
  quantization : Option (List (Nat × List Int))
  deriving DecidableEq

/-- `get_sampling`: read the sampling factors of the first three component
descriptors; a missing descriptor is an `IndexError`. -/
def get_sampling (im : SaveIm) : Except PyErr Int :=
  match im.layer.get? 0 with
  | none => .error .indexError
  | some c0 =>
    match im.layer.get? 1 with
    | none => .error .indexError
    | some c1 =>
      match im.layer.get? 2 with
      | none => .error .indexError
      | some c2 =>
        .ok (samplingsGet (c0.2.1, c0.2.2.1, c1.2.1, c1.2.2.1, c2.2.1, c2.2.2.1))

/-- Split a character list at every character satisfying `p`, keeping empty
pieces (the splitting behavior of Python `str.split(sep)`); the result is
always non-empty. -/
def splitOnP (p : Char → Bool) : List Char → List (List Char)
  | [] => [[]]
  | x :: t =>
    let r := splitOnP p t
    if p x then [] :: r else (x :: r.headD []) :: r.tail

/-- The digit run of a Python integer literal: non-empty, all digits. -/
def digitsVal (cs : List Char) : Option Nat :=
  if cs ≠ [] ∧ cs.all Char.isDigit then
    some (cs.foldl (fun n c => n * 10 + (c.toNat - 48)) 0)
  else none

/-- `int(token)` for a whitespace-free token: optional sign then digits. -/
def parsePyInt (cs : List Char) : Option Int :=
  match cs with
  | [] => none
  | c :: rest =>
    if c = Char.ofNat 45 then (digitsVal rest).map (fun n => -(n : Int))
    else if c = Char.ofNat 43 then (digitsVal rest).map (fun n => (n : Int))
    else (digitsVal (c :: rest)).map (fun n => (n : Int))

/-- Python 2 `str.splitlines()`: lines are terminated by `\r\n`, `\r` or
`\n`; a trailing terminator does not produce a final empty line.  The first
argument accumulates the current line in reverse. -/
def splitlinesAux : List Char → List Char → List (List Char)
  | cur, [] => if cur = [] then [] else [cur.reverse]
  | cur, '\r' :: '\n' :: rest => cur.reverse :: splitlinesAux [] rest
  | cur, '\r' :: rest => cur.reverse :: splitlinesAux [] rest
  | cur, '\n' :: rest => cur.reverse :: splitlinesAux [] rest
  | cur, c :: rest => splitlinesAux (c :: cur) rest

/-- Python 2 `str.splitlines()` on a character list. -/
def splitlinesPy (cs : List Char) : List (List Char) :=
  splitlinesAux [] cs

/-- The whitespace set of Python 2 `str.split()` with no argument:
`' \t\n\r\v\f'` (`string.whitespace`). -/
def isWhitespacePy (c : Char) : Bool :=
  c = ' ' ∨ c = Char.ofNat 9 ∨ c = Char.ofNat 10 ∨ c = Char.ofNat 13 ∨
    c = Char.ofNat 11 ∨ c = Char.ofNat 12

/-- The qtables text tokenizer:
`[int(num) for line in qtables.splitlines() for num in line.split('#', 1)[0].split()]`;
`none` when some token is not an integer literal.  Lines are split as Python
2 `splitlines()` does (at `\r\n`, `\r` or `\n`), comments stripped up to the
first `#` (byte 35) of each line, and fields are the non-empty maximal runs
between `split()` whitespace. -/
def tokenizeQT (s : String) : Option (List Int) :=
  ((splitlinesPy s.data).flatMap (fun line =>
      (splitOnP isWhitespacePy (line.takeWhile (fun c => c ≠ Char.ofNat 35))).filter
        (fun w => w ≠ []))).mapM parsePyInt

/-- `[l[s:s+size] for s in xrange(0, len(l), size)]`: split a list into
chunks of `size` (the last chunk may be shorter).  `size = 0` cannot occur at
the call sites (64 and 65519). -/
def chunksBy (size : Nat) (l : List Nat) : List (List Nat) :=
  if h : l = [] ∨ size = 0 then []
  else l.take size :: chunksBy size (l.drop size)
termination_by l.length
decreasing_by
  have h1 : l ≠ [] := fun he => h (Or.inl he)
  have h2 : size ≠ 0 := fun he => h (Or.inr he)
  have : l.length ≠ 0 := fun h0 => h1 (List.length_eq_zero.mp h0)
  simp only [List.length_drop]
  omega

/-- `chunksBy` for integer lists (the qtables text path chunks parsed
integers, not bytes). -/
def chunksByI (size : Nat) (l : List Int) : List (List Int) :=
  if h : l = [] ∨ size = 0 then []
  else l.take size :: chunksByI size (l.drop size)
termination_by l.length
decreasing_by
  have h1 : l ≠ [] := fun he => h (Or.inl he)
  have h2 : size ≠ 0 := fun he => h (Or.inr he)
  have : l.length ≠ 0 := fun h0 => h1 (List.length_eq_zero.mp h0)
  simp only [List.length_drop]
  omega

/-- One iteration of the validation loop body: `len(table) != 64` triggers
the bare `raise` (a `TypeError` in Python 2) caught as the invalid-table
`ValueError`; `array.array('b', table)` raises an uncaught `OverflowError`
on a value outside -128..127; otherwise `list(array('b', table))` is the
table itself. -/
def checkTable (t : List Int) : Except PyErr (List Int) :=
  if t.length ≠ 64 then .error (.valueError "Invalid quantization table")
  else if t.all (fun c => -128 ≤ c ∧ c ≤ 127) then .ok t
  else .error .overflowError

/-- The shared tuple/list/dict tail of `validate_qtables`: count check then
per-table validation. -/
def validateList (ts : List (List Int)) : Except PyErr (Option (List (List Int))) :=
  if ¬(0 < ts.length ∧ ts.length < 5) then
    .error (.valueError "None or too many quantization tables")
  else
    match ts.mapM checkTable with
    | .error e => .error e
    | .ok ts' => .ok (some ts')

/-- The possible Python values of the `qtables` option.  `qtList` models a
Python list (unhashable), `qtTuple` a tuple (hashable); `validate_qtables`
treats them alike but `qtables in presets` does not. -/
inductive QTab where
  | qtNone
  | qtStr (s : String)
  | qtList (ts : List (List Int))
  | qtTuple (ts : List (List Int))
  | qtDict (d : List (Nat × List Int))
  deriving DecidableEq

/-- `validate_qtables`: text input is tokenized and chunked into groups of
64; a dict is converted through `convert_dict_qtables`; tuples become lists;
then the count and per-table checks run.  `None` stays `None`. -/
def validate_qtables (qt : QTab) : Except PyErr (Option (List (List Int))) :=
  match qt with
  | .qtNone => .ok none
  | .qtStr s =>
    match tokenizeQT s with
    | none => .error (.valueError "Invalid quantization table")
    | some lines => validateList (chunksByI 64 lines)
  | .qtList ts => validateList ts
  | .qtTuple ts => validateList ts
  | .qtDict d =>
    match convert_dict_qtables d with
    | .error e => .error e
    | .ok ts => validateList ts

/-- Modelled from the spec: one entry of the preset table from
`PIL.JpegPresets` (not among the sources): a preset may supply a default
subsampling code and default quantization tables. -/
structure Preset where
  subsampling : Option Int := none
  quantization : Option (List (List Int)) := none
  deriving DecidableEq

/-- The possible Python values of the `quality` option. -/
inductive Quality where
  | qint (n : Int)
  | qstr (s : String)
  deriving DecidableEq

/-- The possible Python values of the `subsampling` option. -/
inductive Subs where
  | sint (n : Int)
  | sstr (s : String)
  deriving DecidableEq

/-- The encoder configuration fields resolved by the modelled portion of
`_save` (quality / subsampling / qtables / rawmode). -/
structure EncCfg where
  rawmode : String
  quality : Int
  subsampling : Subs
  qtables : Option (List (List Int))
  deriving DecidableEq

/-- The option-resolution portion of `_save`, parameterized over the preset
table.  Follows the source order: `RAWMODE` lookup; the `quality`
branches (the sentinel "keep", a preset name, a non-integer failure, or an
integer with per-option preset lookup, where `x in presets` on an unhashable
list or dict raises `TypeError`); the subsampling normalization including
"keep" semantics; the qtables "keep" substitution; `validate_qtables`. -/
def resolveSave (presets : List (String × Preset)) (im : SaveIm)
    (quality : Quality) (subsampling : Subs) (qtables : QTab) :
    Except PyErr EncCfg :=
  match RAWMODE im.mode with
  | none => .error (.ioError ("cannot write mode " ++ im.mode ++ " as JPEG"))
  | some rawmode =>
    let step1 : Except PyErr (Int × Subs × QTab) :=
      if quality = .qstr "keep" then
        .ok (0, .sstr "keep", .qtStr "keep")
      else
        match quality with
        | .qstr s =>
          match lookupA presets s with
          | some p =>
            .ok (0,
              (match p.subsampling with
               | some v => .sint v
               | none => .sint (-1)),
              (match p.quantization with
               | some ts => .qtList ts
               | none => .qtNone))
          | none => .error (.valueError "Invalid quality setting")
        | .qint n =>
          let sub1 : Subs :=
            match subsampling with
            | .sstr s =>
              match lookupA presets s with
              | some p =>
                match p.subsampling with
                | some v => .sint v
                | none => .sint (-1)
              | none => .sstr s
            | x => x
          let qt1 : Except PyErr QTab :=
            match qtables with
            | .qtStr s =>
              match lookupA presets s with
              | some p =>
                .ok (match p.quantization with
                     | some ts => .qtList ts
                     | none => .qtNone)
              | none => .ok (.qtStr s)
            | .qtList _ => .error .typeError -- unhashable in `qtables in presets`
            | .qtDict _ => .error .typeError -- unhashable in `qtables in presets`
            | x => .ok x
          match qt1 with
          | .error e => .error e
          | .ok qt1v => .ok (n, sub1, qt1v)
    match step1 with
    | .error e => .error e
    | .ok (q, sub, qt) =>
      let sub2e : Except PyErr Subs :=
        match sub with
        | .sstr s =>
          if s = "4:4:4" then .ok (.sint 0)
          else if s = "4:2:2" then .ok (.sint 1)
          else if s = "4:1:1" then .ok (.sint 2)
          else if s = "keep" then
            if im.format ≠ some "JPEG" then
              .error (.valueError "Cannot use keep when original image is not a JPEG")
            else
              match get_sampling im with
              | .error e => .error e
              | .ok v => .ok (.sint v)
          else .ok (.sstr s)
        | x => .ok x
      match sub2e with
      | .error e => .error e
      | .ok sub2 =>
        let qt2e : Except PyErr QTab :=
          if qt = .qtStr "keep" then
            if im.format ≠ some "JPEG" then
              .error (.valueError "Cannot use keep when original image is not a JPEG")
            else
              .ok (match im.quantization with
                   | some d => .qtDict d
                   | none => .qtNone)
          else .ok qt
        match qt2e with
        | .error e => .error e
        | .ok qt2 =>
          match validate_qtables qt2 with
          | .error e => .error e
          | .ok qts => .ok { rawmode := rawmode, quality := q,
                             subsampling := sub2, qtables := qts }

/-! ## ICC profile re-chunking on the save path -/

/-- The `while icc_profile: markers.append(...)` loop followed by the
marker-emission loop of `_save`, fused: chunk `ms` are emitted as APP2
segments `FF E2 | len | "ICC_PROFILE\0" | seq | total | data`, with `seq`
starting at `i`.  `o8` is modelled from the spec as emitting the low byte
(`% 256`); the length value `2 + 14 + len(chunk)` stays within `>H` range
because chunks are at most 65519 bytes. -/
def iccLoop (i total : Nat) (ms : List (List Nat)) : List Nat :=
  match ms with
  | [] => []
  | m :: rest =>
    ([255, 226] ++ pack16 (2 + 14 + m.length) ++ iccSig ++ [i % 256, total % 256] ++ m)
      ++ iccLoop (i + 1) total rest

/-- `MAX_DATA_BYTES_IN_MARKER = 65533 - 14`. -/
def MAX_DATA_BYTES_IN_MARKER : Nat := 65519

/-- The `extra` byte string built by `_save` for a non-empty ICC profile. -/
def mkICCSegments (blob : List Nat) : List Nat :=
  iccLoop 1 (chunksBy MAX_DATA_BYTES_IN_MARKER blob).length
    (chunksBy MAX_DATA_BYTES_IN_MARKER blob)

/-- Split a byte stream of back-to-back marker segments into
(marker, payload) pairs, reading each segment exactly as the open-path
handlers do (2-byte marker, then `readSeg`), structured on a fuel
argument for recursion. -/
def readSegStreamF : Nat → List Nat → Except PyErr (List (Nat × List Nat))
  | _, [] => .ok []
  | _, [_] => .error .structError
  | 0, _ :: _ :: _ => .error .structError
  | fuel + 1, a :: b :: t =>
    readSeg t >>= fun pr =>
    (readSegStreamF fuel pr.2).map (fun segs => (a * 256 + b, pr.1) :: segs)

/-- `readSegStreamF` with adequate fuel (each segment consumes at least 4
bytes, so the fuel cannot exhaust). -/
def readSegStream (l : List Nat) : Except PyErr (List (Nat × List Nat)) :=
  readSegStreamF (l.length + 1) l

/-- The round trip of claim C2: build the save-path ICC segments for `blob`,
feed every produced segment through the open-path `APP` handler, then run
the frame-header reassembly on the accumulated fragment list. -/
def roundTripICC (blob : List Nat) : Except PyErr (Option (List Nat)) :=
  readSegStream (mkICCSegments blob) >>= fun segs =>
  segs.foldlM (fun st mp => APP st mp.1 mp.2) initState >>= fun st =>
  fixupICC (st.icclist.getD [])

/-- A well-formed fragment list for sequence numbers `i, i+1, ...` with a
shared declared total `total`: fragment `k` is
`ICC_PROFILE\0 | seq | total | payload`. -/
def mkFrags (i total : Nat) (ps : List (List Nat)) : List (List Nat) :=
  match ps with
  | [] => []
  | p :: rest => (iccSig ++ [i, total] ++ p) :: mkFrags (i + 1) total rest

/-- The fragments actually emitted by the save path (sequence and total
bytes reduced mod 256 by `o8`). -/
def mkFragsM (i total : Nat) (ps : List (List Nat)) : List (List Nat) :=
  match ps with
  | [] => []
  | p :: rest => (iccSig ++ [i % 256, total % 256] ++ p) :: mkFragsM (i + 1) total rest

/-! ## Claim C6: unrecognized markers in the scanner loop -/

/-- C6: in the scanner loop, a candidate 2-byte value outside the marker
table is discarded with a resynchronization on a fresh 0xFF prefix when it
is 0x0000 or 0xFFFF, and is a "no marker found" `SyntaxError` otherwise. -/
theorem scan_unrecognized_marker (st : PState) (pfx b : Nat) (rest : List Nat)
    (h : MARKER (pfx * 256 + b) = none) :
    ((pfx * 256 + b = 0 ∨ pfx * 256 + b = 65535) →
        scan st pfx (b :: rest) = scan st 255 rest) ∧
    (pfx * 256 + b ≠ 0 → pfx * 256 + b ≠ 65535 →
        scan st pfx (b :: rest) = .error (.syntaxError "no marker found")) := by
  constructor
  · intro hj
    show scanF ((b :: rest).length + 1) st pfx (b :: rest) = scan st 255 rest
    simp only [List.length_cons]
    rw [scanF.eq_def]
    simp only [h]
    rw [if_pos hj]
    rfl
  · intro h0 h1
    show scanF ((b :: rest).length + 1) st pfx (b :: rest) =
      .error (.syntaxError "no marker found")
    simp only [List.length_cons]
    rw [scanF.eq_def]
    simp only [h]
    rw [if_neg (by simp [h0, h1])]

/-- Witness for C6 at concrete inputs: candidate 0x0000 resynchronizes,
candidate 0xFF01 (not in the table) fails the open. -/
theorem scan_unrecognized_marker_witness :
    (scan initState 0 [0] = scan initState 255 []) ∧
    (scan initState 255 [1] = .error (.syntaxError "no marker found")) :=
  ⟨(scan_unrecognized_marker initState 0 0 [] (by decide)).1 (Or.inl (by decide)),
   (scan_unrecognized_marker initState 255 1 [] (by decide)).2 (by decide) (by decide)⟩

/-! ## Claim C4: DQT 16-bit precision handling -/

/-- C4 counterexample: a DQT segment whose (truncated) table entry has
precision nibble 1 but fewer than 65 bytes raises the bad-quantization-table
`SyntaxError` instead of abandoning the segment silently: the length check
precedes the precision check. -/
theorem DQT_short_highprec_raises :
    dqtLoop [] (17 :: List.replicate 63 0) =
      .error (.syntaxError "bad quantization table marker") := by
  rw [dqtLoop, dif_neg (by simp),
      if_pos (by norm_num [List.length_replicate])]

/-- C4 amended: with at least 65 bytes remaining at the entry, a non-zero
precision nibble abandons the rest of the segment without raising and leaves
the store as it stands; with a non-empty remainder shorter than 65 bytes the
handler raises the bad-quantization-table error regardless of the precision
nibble. -/
theorem DQT_precision_amended :
    (∀ (q : List (Nat × List Int)) (s : List Nat), 65 ≤ s.length →
        s.headD 0 / 16 ≠ 0 → dqtLoop q s = .ok q) ∧
    (∀ (q : List (Nat × List Int)) (s : List Nat), s ≠ [] → s.length < 65 →
        dqtLoop q s = .error (.syntaxError "bad quantization table marker")) := by
  constructor
  · intro q s h65 hp
    have hne : ¬(s = []) := by
      intro he
      rw [he] at h65
      simp at h65
    rw [dqtLoop]
    rw [dif_neg hne, if_neg (Nat.not_lt.mpr h65), if_neg hp]
  · intro q s hne hlt
    rw [dqtLoop]
    rw [dif_neg hne, if_pos hlt]

/-- Witness for C4 amended: a single 16-bit table entry with a full 65-byte
remainder is skipped silently; a 1-byte remainder raises. -/
theorem DQT_precision_amended_witness :
    dqtLoop [] (16 :: List.replicate 64 0) = .ok [] ∧
    dqtLoop [] [16] = .error (.syntaxError "bad quantization table marker") :=
  ⟨DQT_precision_amended.1 [] (16 :: List.replicate 64 0)
      (by simp [List.length_replicate]) (by decide),
   DQT_precision_amended.2 [] [16] (by decide) (by decide)⟩

/-! ## Claim C5: quantization-table store invariant -/

/-- The store invariant of the amended claim C5. -/
def QInv (q : List (Nat × List Int)) : Prop :=
  ∀ kt ∈ q, kt.1 ≤ 15 ∧ kt.2.length = 64 ∧ ∀ c ∈ kt.2, -128 ≤ c ∧ c ≤ 127

theorem toSigned_range {b : Nat} (hb : b < 256) :
    -128 ≤ toSigned b ∧ toSigned b ≤ 127 := by
  unfold toSigned
  split
  · omega
  · omega

theorem updAssoc_mem {κ ν : Type} [DecidableEq κ] {q : List (κ × ν)} {k : κ} {v : ν}
    {kt : κ × ν} (h : kt ∈ updAssoc q k v) : kt ∈ q ∨ kt = (k, v) := by
  induction q with
  | nil =>
    simp [updAssoc] at h
    exact Or.inr h
  | cons hd t ih =>
    rw [updAssoc] at h
    split at h
    · rcases List.mem_cons.mp h with h1 | h1
      · exact Or.inr h1
      · exact Or.inl (List.mem_cons_of_mem _ h1)
    · rcases List.mem_cons.mp h with h1 | h1
      · exact Or.inl (h1 ▸ List.mem_cons_self _ _)
      · rcases ih h1 with h2 | h2
        · exact Or.inl (List.mem_cons_of_mem _ h2)
        · exact Or.inr h2

theorem dqtLoop_inv (s : List Nat) (q q' : List (Nat × List Int))
    (hb : ∀ b ∈ s, b < 256) (hq : QInv q) (hok : dqtLoop q s = .ok q') : QInv q' := by
  suffices H : ∀ (n : Nat) (s : List Nat) (q q' : List (Nat × List Int)),
      s.length = n → (∀ b ∈ s, b < 256) → QInv q → dqtLoop q s = .ok q' → QInv q' by
    exact H s.length s q q' rfl hb hq hok
  clear hb hq hok s q q'
  intro n
  induction n using Nat.strong_induction_on with
  | _ n ih =>
  intro s q q' hn hb hq hok
  by_cases hne : s = []
  · subst hne
    rw [dqtLoop] at hok
    simp at hok
    exact hok ▸ hq
  · rw [dqtLoop, dif_neg hne] at hok
    by_cases hlt : s.length < 65
    · rw [if_pos hlt] at hok
      cases hok
    · rw [if_neg hlt] at hok
      by_cases hp : s.headD 0 / 16 = 0
      · rw [if_pos hp] at hok
        subst hn
        have hdroplen : (s.drop 65).length < s.length := by
          simp only [List.length_drop]
          omega
        refine ih (s.drop 65).length hdroplen (s.drop 65) _ q' rfl
          (fun b hbm => hb b (List.mem_of_mem_drop hbm)) ?_ hok
        intro kt hkt
        rcases updAssoc_mem hkt with hmem | heq
        · exact hq kt hmem
        · subst heq
          refine ⟨Nat.le_of_lt_succ (Nat.mod_lt _ (by omega)), ?_, ?_⟩
          · simp only [List.length_map, List.length_take, List.length_drop]
            omega
          · intro c hc
            rcases List.mem_map.mp hc with ⟨b, hbm, hbe⟩
            have : b ∈ s := List.mem_of_mem_drop (List.mem_of_mem_take hbm)
            exact hbe ▸ toSigned_range (hb b this)
      · rw [if_neg hp] at hok
        cases hok
        exact hq

/-- C5 amended: after any sequence of successfully handled DQT segments made
of bytes, every occupied slot id lies in 0..15 (the low nibble of the entry
header, stored without further validation) and each occupied slot holds
exactly 64 signed byte-range coefficients. -/
theorem quantization_store_invariant (segs : List (List Nat)) (q' : List (Nat × List Int))
    (hb : ∀ s ∈ segs, ∀ b ∈ s, b < 256)
    (hok : List.foldlM dqtLoop [] segs = .ok q') :
    ∀ kt ∈ q', kt.1 ≤ 15 ∧ kt.2.length = 64 ∧ ∀ c ∈ kt.2, -128 ≤ c ∧ c ≤ 127 := by
  suffices h : ∀ (segs : List (List Nat)) (q q' : List (Nat × List Int)),
      (∀ s ∈ segs, ∀ b ∈ s, b < 256) → QInv q →
      List.foldlM dqtLoop q segs = .ok q' → QInv q' by
    exact h segs [] q' hb (by intro kt hkt; cases hkt) hok
  intro segs
  induction segs with
  | nil =>
    intro q q' _ hq hok
    simp only [List.foldlM_nil] at hok
    injection hok with h
    exact h ▸ hq
  | cons s t ih =>
    intro q q' hb hq hok
    simp only [List.foldlM_cons] at hok
    match he : dqtLoop q s with
    | .error e =>
      rw [he] at hok
      exact Except.noConfusion hok
    | .ok q1 =>
      rw [he] at hok
      exact ih q1 q' (fun s' hs' => hb s' (List.mem_cons_of_mem _ hs'))
        (dqtLoop_inv s q q1 (hb s (List.mem_cons_self _ _)) hq he) hok

/-- C5 counterexample: a DQT table entry with header byte 0x04 occupies slot
4, outside the claimed slot range 0..3. -/
theorem quantization_slot_above_three :
    dqtLoop [] (4 :: List.replicate 64 0) = .ok [(4, List.replicate 64 (0 : Int))] ∧
    ¬(4 ≤ 3) := by
  constructor
  · rw [dqtLoop]
    rw [dif_neg (by simp), if_neg (by simp [List.length_replicate]),
        if_pos (by norm_num)]
    norm_num [List.drop_replicate, List.take_replicate, List.map_replicate]
    rw [dqtLoop]
    rw [dif_pos (by simp [List.drop_replicate])]
    rfl
  · decide

/-- Witness for C5 amended at a concrete run: one DQT segment filling slot 0
with 64 coefficients of value 7. -/
theorem quantization_store_invariant_witness :
    (0 : Nat) ≤ 15 ∧ (List.replicate 64 (7 : Int)).length = 64 ∧
      List.foldlM dqtLoop [] [0 :: List.replicate 64 7] =
        .ok [((0 : Nat), List.replicate 64 (7 : Int))] := by
  have hok : List.foldlM dqtLoop [] [0 :: List.replicate 64 7] =
      .ok [((0 : Nat), List.replicate 64 (7 : Int))] := by
    simp only [List.foldlM_cons, List.foldlM_nil]
    rw [dqtLoop]
    rw [dif_neg (by simp), if_neg (by simp [List.length_replicate]),
        if_pos (by norm_num)]
    norm_num [List.drop_replicate, List.take_replicate, List.map_replicate, toSigned,
      updAssoc]
    rw [dqtLoop]
    rfl
  have h := quantization_store_invariant [0 :: List.replicate 64 7] _
    (by decide) hok ((0 : Nat), List.replicate 64 (7 : Int)) (by decide)
  exact ⟨h.1, h.2.1, hok⟩

/-! ## Claim C7: frame-header bit depth, component count and mode -/

theorem byteAt_isSome {l : List Nat} {i : Nat} (h : i < l.length) :
    byteAt l i = some (byteAtD l i) := by
  induction l generalizing i with
  | nil => simp at h
  | cons a t ih =>
    cases i with
    | zero => rfl
    | succ j =>
      simp only [List.length_cons, Nat.succ_lt_succ_iff] at h
      simpa [byteAt, byteAtD] using ih h

theorem i16at_ok {l : List Nat} {o : Nat} (h : o + 1 < l.length) :
    i16at l o = .ok (byteAtD l o * 256 + byteAtD l (o + 1)) := by
  rw [i16at, byteAt_isSome (by omega), byteAt_isSome h]

theorem compLoop_ok : ∀ (l : List Nat), l.length % 3 = 0 → ∃ cs, compLoop l = .ok cs
  | [], _ => ⟨[], rfl⟩
  | [_], h => by simp at h
  | [_, _], h => by simp at h
  | a :: b :: c :: rest, h => by
    have h' : rest.length % 3 = 0 := by
      simp only [List.length_cons] at h
      omega
    obtain ⟨cs, hcs⟩ := compLoop_ok rest h'
    have hred : compLoop (a :: b :: c :: rest) =
        (match compLoop rest with
         | .error e => .error e
         | .ok cs => .ok ((a, b / 16, b % 16, c) :: cs)) := rfl
    exact ⟨(a, b / 16, b % 16, c) :: cs, by rw [hred, hcs]⟩

/-- C7: on a frame-header payload laid out as
`precision :: height-hi :: height-lo :: width-hi :: width-lo :: count :: comps`
with whole 3-byte component groups and no pending ICC fragments, the `SOF`
handler succeeds exactly when the sample precision is 8 and the component
count is 1, 3 or 4, and on success the mode is L / RGB / CMYK by component
count. -/
theorem SOF_mode_exact (st : PState) (marker : Nat) (b0 x1 x2 x3 x4 b5 : Nat)
    (comps : List Nat) (hmod : comps.length % 3 = 0) (hicc : st.icclist = some []) :
    ((∃ st', SOF st marker (b0 :: x1 :: x2 :: x3 :: x4 :: b5 :: comps) = .ok st') ↔
      (b0 = 8 ∧ (b5 = 1 ∨ b5 = 3 ∨ b5 = 4))) ∧
    (∀ st', SOF st marker (b0 :: x1 :: x2 :: x3 :: x4 :: b5 :: comps) = .ok st' →
      st'.mode = (if b5 = 1 then "L" else if b5 = 3 then "RGB" else "CMYK")) := by
  obtain ⟨cs, hcs⟩ := compLoop_ok comps hmod
  rw [SOF]
  dsimp only [i16at, byteAt, List.drop]
  rw [hicc, hcs]
  by_cases h8 : b0 = 8
  · subst h8
    rw [if_neg (fun hc => hc rfl)]
    by_cases hl1 : b5 = 1
    · subst hl1
      constructor
      · simp
      · intro st' hst'
        injection hst' with he
        rw [← he]
        rfl
    · by_cases hl3 : b5 = 3
      · subst hl3
        constructor
        · simp
        · intro st' hst'
          injection hst' with he
          rw [← he]
          rfl
      · by_cases hl4 : b5 = 4
        · subst hl4
          constructor
          · simp
          · intro st' hst'
            injection hst' with he
            rw [← he]
            rfl
        · rw [if_neg hl1, if_neg hl3, if_neg hl4]
          constructor
          · constructor
            · intro ⟨st', hst'⟩
              cases hst'
            · intro ⟨_, hor⟩
              exact absurd hor (by simp [hl1, hl3, hl4])
          · intro st' hst'
            cases hst'
  · rw [if_pos (fun hc => h8 hc)]
    constructor
    · constructor
      · intro ⟨st', hst'⟩
        cases hst'
      · intro ⟨h8', _⟩
        exact absurd h8' h8
    · intro st' hst'
      cases hst'

/-- Witness for C7 at a concrete 3-component frame header payload
`[8, 0,1, 0,1, 3, 1,17,0, 2,17,1, 3,17,1]`. -/
theorem SOF_mode_exact_witness :
    ∃ st', SOF initState 0xFFC0 [8, 0, 1, 0, 1, 3, 1, 17, 0, 2, 17, 1, 3, 17, 1] = .ok st' :=
  (SOF_mode_exact initState 0xFFC0 8 0 1 0 1 3 [1, 17, 0, 2, 17, 1, 3, 17, 1]
      (by decide) rfl).1.mpr (by decide)

/-! ## Claim C1: ICC fragment reassembly -/

theorem fixup_perm {l₁ l₂ : List (List Nat)} (h : l₁.Perm l₂) :
    fixupICC l₁ = fixupICC l₂ := by
  have hsort : List.insertionSort bytesLe l₁ = List.insertionSort bytesLe l₂ :=
    List.eq_of_perm_of_sorted
      (((List.perm_insertionSort bytesLe l₁).trans h).trans
        (List.perm_insertionSort bytesLe l₂).symm)
      (List.sorted_insertionSort bytesLe l₁)
      (List.sorted_insertionSort bytesLe l₂)
  rw [fixupICC, fixupICC, hsort, h.length_eq]

theorem mkFrags_mem {i N : Nat} {ps : List (List Nat)} {q : List Nat}
    (h : q ∈ mkFrags i N ps) : ∃ j p, i ≤ j ∧ q = iccSig ++ [j, N] ++ p := by
  induction ps generalizing i with
  | nil => simp [mkFrags] at h
  | cons p pr ih =>
    rw [mkFrags] at h
    rcases List.mem_cons.mp h with h1 | h1
    · exact ⟨i, p, Nat.le_refl _, h1⟩
    · obtain ⟨j, p', hj, he⟩ := ih h1
      exact ⟨j, p', by omega, he⟩

theorem mkFrags_sorted (i N : Nat) (ps : List (List Nat)) :
    List.Sorted bytesLe (mkFrags i N ps) := by
  induction ps generalizing i with
  | nil => simp [mkFrags, List.Sorted]
  | cons p pr ih =>
    rw [mkFrags, List.sorted_cons]
    refine ⟨?_, ih (i + 1)⟩
    intro q hq
    obtain ⟨j, p', hj, he⟩ := mkFrags_mem hq
    subst he
    show lexLe (iccSig ++ [i, N] ++ p) (iccSig ++ [j, N] ++ p') = true
    rw [List.append_assoc, List.append_assoc, lexLe_append_same]
    exact lexLe_cons_of_lt (by omega) _ _

theorem mkFrags_length (i N : Nat) (ps : List (List Nat)) :
    (mkFrags i N ps).length = ps.length := by
  induction ps generalizing i with
  | nil => rfl
  | cons p pr ih =>
    rw [mkFrags]
    simp [ih]

theorem mkFrags_profile (i N : Nat) (ps : List (List Nat)) :
    ((mkFrags i N ps).map (fun p => p.drop 14)).flatten = ps.flatten := by
  induction ps generalizing i with
  | nil => rfl
  | cons p pr ih =>
    rw [mkFrags]
    simp only [List.map_cons, List.flatten_cons, ih]
    congr 1

theorem fixup_mkFrags (ps : List (List Nat)) (hne : ps ≠ []) :
    fixupICC (mkFrags 1 ps.length ps) = .ok (some ps.flatten) := by
  obtain ⟨p, pr, rfl⟩ := List.exists_cons_of_ne_nil hne
  have hsq : List.insertionSort bytesLe (mkFrags 1 (p :: pr).length (p :: pr)) =
      mkFrags 1 (p :: pr).length (p :: pr) :=
    (mkFrags_sorted 1 (p :: pr).length (p :: pr)).insertionSort_eq
  have hexp : mkFrags 1 (p :: pr).length (p :: pr) =
      (iccSig ++ [1, (p :: pr).length] ++ p) :: mkFrags 2 (p :: pr).length pr := rfl
  have hb : byteAt (iccSig ++ [1, (p :: pr).length] ++ p) 13 = some (p :: pr).length := rfl
  rw [fixupICC.eq_def, hsq, hexp]
  dsimp only
  rw [hb]
  dsimp only
  rw [if_pos (by rw [← hexp, mkFrags_length])]
  rw [← hexp, mkFrags_profile]

theorem fixup_mismatch_none (l : List (List Nat)) (hne : l ≠ [])
    (hlen : ∀ p ∈ l, 14 ≤ p.length)
    (hc : byteAtD ((List.insertionSort bytesLe l).headD []) 13 ≠ l.length) :
    fixupICC l = .ok none := by
  match hs : List.insertionSort bytesLe l with
  | [] =>
    have := (List.perm_insertionSort bytesLe l).length_eq
    rw [hs] at this
    exact absurd (List.length_eq_zero.mp this.symm) hne
  | f :: rest =>
    have hf : f ∈ l := (List.mem_insertionSort bytesLe).mp (hs ▸ List.mem_cons_self f rest)
    have hfb : byteAt f 13 = some (byteAtD f 13) := byteAt_isSome (by
      have := hlen f hf
      omega)
    rw [fixupICC.eq_def, hs]
    dsimp only
    rw [hfb]
    dsimp only
    rw [hs] at hc
    simp only [List.headD_cons] at hc
    rw [if_neg hc]

theorem SOF_clears_icclist (st : PState) (marker : Nat) (s : List Nat)
    (l : List (List Nat)) (st' : PState) (hicc : st.icclist = some l) (hlne : l ≠ [])
    (hok : SOF st marker s = .ok st') : st'.icclist = none := by
  rw [SOF] at hok
  obtain ⟨f, fs, rfl⟩ := List.exists_cons_of_ne_nil hlne
  cases h3 : i16at s 3 with
  | error e => rw [h3] at hok; cases hok
  | ok w =>
  rw [h3] at hok
  cases h1 : i16at s 1 with
  | error e => rw [h1] at hok; cases hok
  | ok hh =>
  rw [h1] at hok
  cases hb0 : byteAt s 0 with
  | none => rw [hb0] at hok; cases hok
  | some bits =>
  rw [hb0] at hok
  dsimp only at hok
  by_cases h8 : bits ≠ 8
  · rw [if_pos h8] at hok; cases hok
  · rw [if_neg h8] at hok
    cases hb5 : byteAt s 5 with
    | none => rw [hb5] at hok; cases hok
    | some layers =>
    rw [hb5] at hok
    dsimp only at hok
    cases hm : (if layers = 1 then some "L"
                else if layers = 3 then some "RGB"
                else if layers = 4 then some "CMYK" else none) with
    | none => rw [hm] at hok; cases hok
    | some mode =>
    rw [hm] at hok
    dsimp only at hok
    rw [hicc] at hok
    dsimp only at hok
    cases hfix : fixupICC (f :: fs) with
    | error e => rw [hfix] at hok; cases hok
    | ok r =>
    rw [hfix] at hok
    dsimp only at hok
    cases hcl : compLoop (s.drop 6) with
    | error e => rw [hcl] at hok; cases hok
    | ok cs =>
    rw [hcl] at hok
    injection hok with he
    rw [← he]

/-- C1 amended: (1) reassembly depends only on the multiset of fragments
(arrival order never matters); (2) a fragment set with sequence numbers
exactly 1..N, each present once, and declared total N reassembles to the
payload concatenation in sequence order, from any arrival permutation;
(3) the only check performed is that the declared total count in the
lexicographically lowest fragment equals the number of fragments: when it
fails the profile is recorded absent (no error); (4) a successful frame
header discards the fragment buffer. -/
theorem icc_reassembly_amended :
    (∀ l₁ l₂ : List (List Nat), l₁.Perm l₂ → fixupICC l₁ = fixupICC l₂) ∧
    (∀ (ps l : List (List Nat)), ps ≠ [] →
        l.Perm (mkFrags 1 ps.length ps) → fixupICC l = .ok (some ps.flatten)) ∧
    (∀ l : List (List Nat), l ≠ [] → (∀ p ∈ l, 14 ≤ p.length) →
        byteAtD ((List.insertionSort bytesLe l).headD []) 13 ≠ l.length →
        fixupICC l = .ok none) ∧
    (∀ (st : PState) (marker : Nat) (s : List Nat) (l : List (List Nat)) (st' : PState),
        st.icclist = some l → l ≠ [] → SOF st marker s = .ok st' →
        st'.icclist = none) := by
  refine ⟨fun l₁ l₂ h => fixup_perm h, ?_, fixup_mismatch_none, SOF_clears_icclist⟩
  intro ps l hne hperm
  rw [fixup_perm hperm]
  exact fixup_mkFrags ps hne

/-- C1 counterexample to the claim as stated: two fragments both carrying
sequence number 1 and declared total 2 (a duplicated and a missing sequence
number) still reassemble to a profile, because the code only compares the
declared total of the lowest fragment with the fragment count; the claim
requires the profile to be absent. -/
theorem icc_duplicate_seq_not_absent :
    fixupICC [iccSig ++ [1, 2, 9], iccSig ++ [1, 2, 7]] = .ok (some [7, 9]) ∧
    (Except.ok (some [7, 9]) : Except PyErr (Option (List Nat))) ≠ .ok none := by
  constructor
  · rfl
  · intro h
    injection h with h1
    cases h1

/-- Witness for C1 amended: fragments `(seq 2, total 2, payload [6])` and
`(seq 1, total 2, payload [5])` arriving in reverse order reassemble to
`[5, 6]`. -/
theorem icc_reassembly_amended_witness :
    fixupICC [iccSig ++ [2, 2, 6], iccSig ++ [1, 2, 5]] = .ok (some [5, 6]) := by
  have h := icc_reassembly_amended.2.1 [[5], [6]]
    [iccSig ++ [2, 2, 6], iccSig ++ [1, 2, 5]] (by decide) (by decide)
  simpa using h

/-! ## Claim C3: APP14 Adobe transform -/

/-- C3: on an APP14 `Adobe` payload carrying version 0x0064, zero flags and
color-transform code 2 (at offset 11), the handler records payload byte 1 —
the letter d of the `Adobe` prefix, value 100 — as `adobe_transform`, not
the transform code. -/
theorem APP14_transform_wrong_byte :
    (APP initState 0xFFEE (adobeSig ++ [0, 100, 0, 0, 0, 0, 2])).map
        (fun st => st.info.adobe_transform) = .ok (some 100) ∧
    byteAt (adobeSig ++ [0, 100, 0, 0, 0, 0, 2]) 11 = some 2 ∧ (100 : Nat) ≠ 2 := by
  refine ⟨?_, rfl, by decide⟩
  rfl

/-! ## Claims C8 and C10: "keep" semantics on the save path -/

theorem get_sampling_short {im : SaveIm} (h : im.layer.length < 3) :
    get_sampling im = .error .indexError := by
  match him : im.layer with
  | [] => simp [get_sampling, him]
  | [a] => simp [get_sampling, him]
  | [a, b] => simp [get_sampling, him]
  | a :: b :: c :: t =>
    rw [him] at h
    simp at h
    omega

/-- C8: quality "keep" forces subsampling and qtables to resolve via "keep"
semantics regardless of the supplied values; resolving subsampling or
qtables as "keep" fails with the configuration `ValueError` whenever the
source format is not "JPEG"; on a JPEG-origin source the resolution is the
deterministic value of `get_sampling` / of the stored quantization tables
passed through `validate_qtables`. -/
theorem keep_semantics :
    (∀ (presets : List (String × Preset)) (im : SaveIm) (sub : Subs) (qt : QTab),
        resolveSave presets im (.qstr "keep") sub qt =
          resolveSave presets im (.qstr "keep") (.sstr "keep") (.qtStr "keep")) ∧
    (∀ (presets : List (String × Preset)) (im : SaveIm) (sub : Subs) (qt : QTab)
        (rm : String), RAWMODE im.mode = some rm → im.format ≠ some "JPEG" →
        resolveSave presets im (.qstr "keep") sub qt =
          .error (.valueError "Cannot use keep when original image is not a JPEG")) ∧
    (∀ (presets : List (String × Preset)) (im : SaveIm) (n m : Int) (rm : String),
        RAWMODE im.mode = some rm → lookupA presets "keep" = none →
        im.format ≠ some "JPEG" →
        resolveSave presets im (.qint n) (.sint m) (.qtStr "keep") =
          .error (.valueError "Cannot use keep when original image is not a JPEG")) ∧
    (∀ (presets : List (String × Preset)) (im : SaveIm) (sub : Subs) (qt : QTab)
        (rm : String) (v : Int) (qd : List (Nat × List Int)) (ts : List (List Int)),
        RAWMODE im.mode = some rm → im.format = some "JPEG" →
        get_sampling im = .ok v → im.quantization = some qd →
        validate_qtables (.qtDict qd) = .ok (some ts) →
        resolveSave presets im (.qstr "keep") sub qt =
          .ok { rawmode := rm, quality := 0, subsampling := .sint v,
                qtables := some ts }) := by
  refine ⟨?_, ?_, ?_, ?_⟩
  · intro presets im sub qt
    cases hR : RAWMODE im.mode with
    | none => simp [resolveSave, hR]
    | some rm => simp [resolveSave, hR]
  · intro presets im sub qt rm hR hfmt
    simp [resolveSave, hR, hfmt]
  · intro presets im n m rm hR hkp hfmt
    simp [resolveSave, hR, hkp, hfmt]
  · intro presets im sub qt rm v qd ts hR hfmt hgs hq hv
    simp [resolveSave, hR, hfmt, hgs, hq, hv]

/-- Witness for C8 at a concrete saved-from-JPEG image with 4:4:4 sampling
and one stored table. -/
theorem keep_semantics_witness :
    resolveSave [] { mode := "L", format := some "JPEG",
                     layer := [(1, 1, 1, 0), (2, 1, 1, 1), (3, 1, 1, 1)],
                     quantization := some [(0, List.replicate 64 2)] }
        (.qstr "keep") (.sint (-1)) .qtNone =
      .ok { rawmode := "L", quality := 0, subsampling := .sint 0,
            qtables := some [List.replicate 64 2] } :=
  keep_semantics.2.2.2 [] _ (.sint (-1)) .qtNone "L" 0 [(0, List.replicate 64 2)]
    [List.replicate 64 2] rfl rfl (by decide) rfl (by decide)

/-- C10: on a JPEG-origin source whose frame header declared fewer than
three components, resolving subsampling "keep" (directly or forced by
quality "keep") reads the first three component descriptors unconditionally
and fails with `IndexError`, not with the configuration `ValueError`. -/
theorem keep_sampling_short_layer :
    (∀ (presets : List (String × Preset)) (im : SaveIm) (sub : Subs) (qt : QTab)
        (rm : String), RAWMODE im.mode = some rm → im.format = some "JPEG" →
        im.layer.length < 3 →
        resolveSave presets im (.qstr "keep") sub qt = .error .indexError) ∧
    (∀ (presets : List (String × Preset)) (im : SaveIm) (n : Int) (rm : String),
        RAWMODE im.mode = some rm → lookupA presets "keep" = none →
        im.format = some "JPEG" → im.layer.length < 3 →
        resolveSave presets im (.qint n) (.sstr "keep") .qtNone =
          .error .indexError) ∧
    (∀ e : PyErr, e = PyErr.indexError → ∀ msg, e ≠ .valueError msg) := by
  refine ⟨?_, ?_, ?_⟩
  · intro presets im sub qt rm hR hfmt hlay
    simp [resolveSave, hR, hfmt, get_sampling_short hlay]
  · intro presets im n rm hR hkp hfmt hlay
    simp [resolveSave, hR, hkp, hfmt, get_sampling_short hlay]
  · intro e he msg
    subst he
    intro hc
    cases hc

/-- Witness for C10 at a concrete single-component (grayscale) JPEG
reload. -/
theorem keep_sampling_short_layer_witness :
    resolveSave [] { mode := "L", format := some "JPEG", layer := [(1, 2, 2, 0)],
                     quantization := some [] }
        (.qstr "keep") (.sint (-1)) .qtNone = .error .indexError :=
  keep_sampling_short_layer.1 [] _ (.sint (-1)) .qtNone "L" rfl rfl (by decide)

/-! ## Claim C9: quantization-table validation on the save path -/

/-- A table passes the per-table validation loop iff it has 64 entries in
signed-byte range, and then it is returned unchanged. -/
theorem checkTable_ok_iff {t u : List Int} :
    checkTable t = .ok u ↔
      (u = t ∧ t.length = 64 ∧ ∀ c ∈ t, -128 ≤ c ∧ c ≤ 127) := by
  unfold checkTable
  by_cases h64 : t.length ≠ 64
  · rw [if_pos h64]
    constructor
    · intro h; cases h
    · intro ⟨_, h, _⟩; exact absurd h h64
  · rw [if_neg h64]
    have h64' : t.length = 64 := not_not.mp h64
    by_cases hall : ∀ c ∈ t, -128 ≤ c ∧ c ≤ 127
    · rw [if_pos (by
        rw [List.all_eq_true]
        intro c hc
        exact decide_eq_true (hall c hc))]
      constructor
      · intro h
        injection h with h'
        exact ⟨h'.symm, h64', hall⟩
      · intro ⟨hu, _, _⟩
        rw [hu]
    · rw [if_neg (by
        rw [List.all_eq_true]
        intro hc
        exact hall (fun c hcm => of_decide_eq_true (hc c hcm)))]
      constructor
      · intro h; cases h
      · intro ⟨_, _, h⟩; exact absurd h hall

theorem checkTable_err {t : List Int}
    (h : ¬(t.length = 64 ∧ ∀ c ∈ t, -128 ≤ c ∧ c ≤ 127)) :
    ∃ e, checkTable t = .error e ∧
      (e = .valueError "Invalid quantization table" ∨ e = .overflowError) := by
  unfold checkTable
  by_cases h64 : t.length ≠ 64
  · exact ⟨_, by rw [if_pos h64], Or.inl rfl⟩
  · have h64' : t.length = 64 := not_not.mp h64
    have hall : ¬ ∀ c ∈ t, -128 ≤ c ∧ c ≤ 127 := fun hc => h ⟨h64', hc⟩
    refine ⟨.overflowError, ?_, Or.inr rfl⟩
    rw [if_neg h64]
    rw [if_neg (by
      rw [List.all_eq_true]
      intro hc
      exact hall (fun c hcm => of_decide_eq_true (hc c hcm)))]

theorem mapM_checkTable_ok {ts : List (List Int)}
    (h : ∀ t ∈ ts, t.length = 64 ∧ ∀ c ∈ t, -128 ≤ c ∧ c ≤ 127) :
    ts.mapM checkTable = .ok ts := by
  induction ts with
  | nil => rfl
  | cons a l ih =>
    rw [List.mapM_cons]
    have ha : checkTable a = .ok a :=
      checkTable_ok_iff.mpr ⟨rfl, h a (List.mem_cons_self _ _)⟩
    rw [ha, ih (fun t ht => h t (List.mem_cons_of_mem _ ht))]
    rfl

theorem mapM_checkTable_ok_inv {ts ts' : List (List Int)}
    (h : ts.mapM checkTable = .ok ts') :
    ts' = ts ∧ ∀ t ∈ ts, t.length = 64 ∧ ∀ c ∈ t, -128 ≤ c ∧ c ≤ 127 := by
  induction ts generalizing ts' with
  | nil =>
    injection h with h'
    exact ⟨h'.symm, by intro t ht; cases ht⟩
  | cons a l ih =>
    rw [List.mapM_cons] at h
    cases ha : checkTable a with
    | error e =>
      rw [ha] at h
      exact Except.noConfusion h
    | ok b =>
      rw [ha] at h
      cases hm : l.mapM checkTable with
      | error e =>
        rw [hm] at h
        exact Except.noConfusion h
      | ok bs =>
        rw [hm] at h
        injection h with h'
        obtain ⟨hba, hga⟩ := checkTable_ok_iff.mp ha
        obtain ⟨hbs, hgl⟩ := ih hm
        subst hba hbs
        refine ⟨h'.symm, ?_⟩
        intro t ht
        rcases List.mem_cons.mp ht with h1 | h1
        · exact h1 ▸ hga
        · exact hgl t h1

theorem mapM_checkTable_err {ts : List (List Int)}
    (h : ¬ ∀ t ∈ ts, t.length = 64 ∧ ∀ c ∈ t, -128 ≤ c ∧ c ≤ 127) :
    ∃ e, ts.mapM checkTable = .error e ∧
      (e = .valueError "Invalid quantization table" ∨ e = .overflowError) := by
  induction ts with
  | nil => exact absurd (by intro t ht; cases ht) h
  | cons a l ih =>
    by_cases hga : a.length = 64 ∧ ∀ c ∈ a, -128 ≤ c ∧ c ≤ 127
    · have hgl : ¬ ∀ t ∈ l, t.length = 64 ∧ ∀ c ∈ t, -128 ≤ c ∧ c ≤ 127 := by
        intro hc
        refine h ?_
        intro t ht
        rcases List.mem_cons.mp ht with h1 | h1
        · exact h1 ▸ hga
        · exact hc t h1
      obtain ⟨e, he, hor⟩ := ih hgl
      refine ⟨e, ?_, hor⟩
      rw [List.mapM_cons, checkTable_ok_iff.mpr ⟨rfl, hga⟩, he]
      rfl
    · obtain ⟨e, he, hor⟩ := checkTable_err hga
      refine ⟨e, ?_, hor⟩
      rw [List.mapM_cons, he]
      rfl

theorem validateList_ok_iff (ts : List (List Int)) :
    validateList ts = .ok (some ts) ↔
      (0 < ts.length ∧ ts.length < 5 ∧
       ∀ t ∈ ts, t.length = 64 ∧ ∀ c ∈ t, -128 ≤ c ∧ c ≤ 127) := by
  unfold validateList
  by_cases hcnt : 0 < ts.length ∧ ts.length < 5
  · rw [if_neg (fun hc => hc hcnt)]
    by_cases hgood : ∀ t ∈ ts, t.length = 64 ∧ ∀ c ∈ t, -128 ≤ c ∧ c ≤ 127
    · rw [mapM_checkTable_ok hgood]
      constructor
      · intro _
        exact ⟨hcnt.1, hcnt.2, hgood⟩
      · intro _
        rfl
    · obtain ⟨e, he, _⟩ := mapM_checkTable_err hgood
      rw [he]
      constructor
      · intro h; cases h
      · intro ⟨_, _, h⟩; exact absurd h hgood
  · rw [if_pos hcnt]
    constructor
    · intro h; cases h
    · intro ⟨h1, h2, _⟩; exact absurd ⟨h1, h2⟩ hcnt

theorem checkTable_lenErr {t : List Int} (h : t.length ≠ 64) :
    checkTable t = .error (.valueError "Invalid quantization table") := by
  unfold checkTable
  rw [if_pos h]

theorem checkTable_rangeErr {t : List Int} (h64 : t.length = 64)
    (hbad : ¬ ∀ c ∈ t, -128 ≤ c ∧ c ≤ 127) :
    checkTable t = .error .overflowError := by
  unfold checkTable
  rw [if_neg (fun hc => hc h64)]
  rw [if_neg (by
    rw [List.all_eq_true]
    intro hc
    exact hbad (fun c hcm => of_decide_eq_true (hc c hcm)))]

theorem mapM_checkTable_lenErr {ts : List (List Int)}
    (hrange : ∀ t ∈ ts, ∀ c ∈ t, -128 ≤ c ∧ c ≤ 127)
    (hbad : ¬ ∀ t ∈ ts, t.length = 64) :
    ts.mapM checkTable = .error (.valueError "Invalid quantization table") := by
  induction ts with
  | nil => exact absurd (by intro t ht; cases ht) hbad
  | cons a l ih =>
    by_cases ha : a.length = 64
    · have hok : checkTable a = .ok a :=
        checkTable_ok_iff.mpr ⟨rfl, ha, hrange a (List.mem_cons_self _ _)⟩
      have hbl : ¬ ∀ t ∈ l, t.length = 64 := by
        intro hc
        refine hbad ?_
        intro t ht
        rcases List.mem_cons.mp ht with h1 | h1
        · exact h1 ▸ ha
        · exact hc t h1
      rw [List.mapM_cons, hok,
        ih (fun t ht => hrange t (List.mem_cons_of_mem _ ht)) hbl]
      rfl
    · rw [List.mapM_cons, checkTable_lenErr ha]
      rfl

theorem mapM_checkTable_rangeErr {ts : List (List Int)}
    (hlen : ∀ t ∈ ts, t.length = 64)
    (hbad : ¬ ∀ t ∈ ts, ∀ c ∈ t, -128 ≤ c ∧ c ≤ 127) :
    ts.mapM checkTable = .error .overflowError := by
  induction ts with
  | nil => exact absurd (by intro t ht; cases ht) hbad
  | cons a l ih =>
    by_cases ha : ∀ c ∈ a, -128 ≤ c ∧ c ≤ 127
    · have hok : checkTable a = .ok a :=
        checkTable_ok_iff.mpr ⟨rfl, hlen a (List.mem_cons_self _ _), ha⟩
      have hbl : ¬ ∀ t ∈ l, ∀ c ∈ t, -128 ≤ c ∧ c ≤ 127 := by
        intro hc
        refine hbad ?_
        intro t ht
        rcases List.mem_cons.mp ht with h1 | h1
        · exact h1 ▸ ha
        · exact hc t h1
      rw [List.mapM_cons, hok,
        ih (fun t ht => hlen t (List.mem_cons_of_mem _ ht)) hbl]
      rfl
    · rw [List.mapM_cons, checkTable_rangeErr (hlen a (List.mem_cons_self _ _)) ha]
      rfl

theorem lookupA_enumFrom {α : Type} (ts : List α) (i k : Nat) :
    lookupA (List.enumFrom i ts) (i + k) = ts.get? k := by
  induction ts generalizing i k with
  | nil => rfl
  | cons a l ih =>
    rw [List.enumFrom_cons]
    cases k with
    | zero => simp [lookupA]
    | succ j =>
      rw [lookupA]
      rw [if_neg (by omega)]
      have : i + (j + 1) = (i + 1) + j := by omega
      rw [this, ih]
      rfl

theorem getRange {α : Type} (ts : List α) :
    (List.range ts.length).filterMap (fun k => ts.get? k) = ts := by
  induction ts with
  | nil => rfl
  | cons a l ih =>
    rw [List.length_cons, List.range_succ_eq_map, List.filterMap_cons]
    simp only [List.get?_cons_zero]
    rw [List.filterMap_map]
    have hfc : ((fun k => (a :: l).get? k) ∘ Nat.succ) = fun k => l.get? k := by
      funext k
      rfl
    rw [hfc, ih]

theorem convert_enum (ts : List (List Int)) :
    convert_dict_qtables ts.enum = ts.mapM reorderZZ := by
  unfold convert_dict_qtables
  have hlen : ts.enum.length = ts.length := List.enum_length
  have hfun : (fun k => lookupA ts.enum k) = fun k => ts.get? k := by
    funext k
    have : ts.enum = List.enumFrom 0 ts := rfl
    rw [this]
    have h0 : (0 : Nat) + k = k := by omega
    rw [← h0, lookupA_enumFrom, h0]
  rw [hlen, hfun, getRange]

/-- C9 amended: a text blob is tokenized by stripping per-line comments and
parsing whitespace-separated integers, then chunked into groups of 64; a
contiguous mapping keyed 0..n-1 is converted in increasing key order through
the zig-zag permutation (non-contiguous keys at or above the mapping size
are silently dropped, not taken sorted); the list-level validation accepts
exactly 1..4 tables of 64 signed-byte-range entries each, returning them
unchanged; a bad table count is the none-or-too-many `ValueError`; a
wrong-length table (values all in range) is the invalid-table `ValueError`,
while 64-entry tables holding a value outside -128..127 raise an uncaught
`OverflowError` — not the configuration error. -/
theorem validate_qtables_amended :
    (∀ (s : String) (L : List Int), tokenizeQT s = some L →
        validate_qtables (.qtStr s) = validateList (chunksByI 64 L)) ∧
    (∀ s : String, tokenizeQT s = none →
        validate_qtables (.qtStr s) = .error (.valueError "Invalid quantization table")) ∧
    (∀ ts : List (List Int), convert_dict_qtables ts.enum = ts.mapM reorderZZ) ∧
    (∀ ts : List (List Int), validateList ts = .ok (some ts) ↔
        (0 < ts.length ∧ ts.length < 5 ∧
         ∀ t ∈ ts, t.length = 64 ∧ ∀ c ∈ t, -128 ≤ c ∧ c ≤ 127)) ∧
    (∀ ts : List (List Int), ¬(0 < ts.length ∧ ts.length < 5) →
        validateList ts = .error (.valueError "None or too many quantization tables")) ∧
    (∀ ts : List (List Int), 0 < ts.length → ts.length < 5 →
        (∀ t ∈ ts, ∀ c ∈ t, -128 ≤ c ∧ c ≤ 127) → ¬(∀ t ∈ ts, t.length = 64) →
        validateList ts = .error (.valueError "Invalid quantization table")) ∧
    (∀ ts : List (List Int), 0 < ts.length → ts.length < 5 →
        (∀ t ∈ ts, t.length = 64) → ¬(∀ t ∈ ts, ∀ c ∈ t, -128 ≤ c ∧ c ≤ 127) →
        validateList ts = .error .overflowError) := by
  refine ⟨?_, ?_, convert_enum, validateList_ok_iff, ?_, ?_, ?_⟩
  · intro s L h
    simp [validate_qtables, h]
  · intro s h
    simp [validate_qtables, h]
  · intro ts h
    unfold validateList
    rw [if_pos h]
  · intro ts h1 h2 hrange hbad
    unfold validateList
    rw [if_neg (fun hc => hc ⟨h1, h2⟩), mapM_checkTable_lenErr hrange hbad]
  · intro ts h1 h2 hlen hbad
    unfold validateList
    rw [if_neg (fun hc => hc ⟨h1, h2⟩), mapM_checkTable_rangeErr hlen hbad]

/-- C9 counterexample to the claim as stated: a mapping with keys {1, 3} is
not taken sorted by integer key — only keys below the mapping size that are
present survive, so table 3 is silently dropped and the result has a single
table instead of the two sorted tables the claim requires. -/
theorem qtables_dict_gap_dropped :
    validate_qtables (.qtDict [(1, List.replicate 64 1), (3, List.replicate 64 2)]) =
      .ok (some [List.replicate 64 1]) ∧
    (Except.ok (some [List.replicate 64 (1 : Int)]) :
        Except PyErr (Option (List (List Int)))) ≠
      .ok (some [List.replicate 64 1, List.replicate 64 2]) := by
  constructor
  · decide
  · decide

/-- Witness for C9 amended: the text "1 2" is tokenized and chunked; one
valid all-zero table passes unchanged; an empty table list is the count
error; a 63-entry table is the invalid-table `ValueError`; a 64-entry table
holding 200 is the uncaught `OverflowError`. -/
theorem validate_qtables_amended_witness :
    validate_qtables (.qtStr "1 2") = validateList (chunksByI 64 [1, 2]) ∧
    validateList [List.replicate 64 0] = .ok (some [List.replicate 64 0]) ∧
    validateList [] = .error (.valueError "None or too many quantization tables") ∧
    validateList [List.replicate 63 0] =
      .error (.valueError "Invalid quantization table") ∧
    validateList [List.replicate 64 (200 : Int)] = .error .overflowError :=
  ⟨validate_qtables_amended.1 "1 2" [1, 2] (by decide),
   (validate_qtables_amended.2.2.2.1 [List.replicate 64 0]).mpr (by decide),
   validate_qtables_amended.2.2.2.2.1 [] (by decide),
   validate_qtables_amended.2.2.2.2.2.1 [List.replicate 63 0] (by decide) (by decide)
     (by decide) (by decide),
   validate_qtables_amended.2.2.2.2.2.2 [List.replicate 64 (200 : Int)] (by decide)
     (by decide) (by decide) (by decide)⟩

/-! ## Claim C2: ICC re-chunking round trip -/

theorem chunksBy_flatten {k : Nat} (hk : 0 < k) (l : List Nat) :
    (chunksBy k l).flatten = l := by
  suffices H : ∀ (n : Nat) (l : List Nat), l.length = n → (chunksBy k l).flatten = l by
    exact H l.length l rfl
  intro n
  induction n using Nat.strong_induction_on with
  | _ n ih =>
  intro l hn
  by_cases hne : l = []
  · subst hne
    rw [chunksBy, dif_pos (Or.inl rfl)]
    rfl
  · rw [chunksBy, dif_neg (by push_neg; exact ⟨hne, by omega⟩)]
    rw [List.flatten_cons]
    have hlen : (l.drop k).length < n := by
      subst hn
      simp only [List.length_drop]
      have : l.length ≠ 0 := fun h0 => hne (List.length_eq_zero.mp h0)
      omega
    rw [ih (l.drop k).length hlen (l.drop k) rfl, List.take_append_drop]

theorem chunksBy_mem_le {k : Nat} {l m : List Nat} (h : m ∈ chunksBy k l) :
    m.length ≤ k := by
  suffices H : ∀ (n : Nat) (l m : List Nat), l.length = n → m ∈ chunksBy k l →
      m.length ≤ k by
    exact H l.length l m rfl h
  clear h
  intro n
  induction n using Nat.strong_induction_on with
  | _ n ih =>
  intro l m hn hm
  by_cases hd : l = [] ∨ k = 0
  · rw [chunksBy, dif_pos hd] at hm
    cases hm
  · rw [chunksBy, dif_neg hd] at hm
    push_neg at hd
    rcases List.mem_cons.mp hm with h1 | h1
    · subst h1
      simp only [List.length_take]
      omega
    · have hlen : (l.drop k).length < n := by
        subst hn
        simp only [List.length_drop]
        have : l.length ≠ 0 := fun h0 => hd.1 (List.length_eq_zero.mp h0)
        omega
      exact ih (l.drop k).length hlen (l.drop k) m rfl h1

theorem chunksBy_length_le {k : Nat} (hk : 0 < k) :
    ∀ (j : Nat) (l : List Nat), l.length ≤ j * k → (chunksBy k l).length ≤ j := by
  intro j
  induction j with
  | zero =>
    intro l hl
    have : l = [] := List.length_eq_zero.mp (by omega)
    rw [this, chunksBy, dif_pos (Or.inl rfl)]
    exact Nat.le_refl 0
  | succ j ih =>
    intro l hl
    by_cases hne : l = []
    · rw [hne, chunksBy, dif_pos (Or.inl rfl)]
      exact Nat.zero_le _
    · rw [chunksBy, dif_neg (by push_neg; exact ⟨hne, by omega⟩)]
      rw [List.length_cons]
      have : (l.drop k).length ≤ j * k := by
        simp only [List.length_drop]
        have hj : (j + 1) * k = j * k + k := by ring
        omega
      have := ih (l.drop k) this
      omega

theorem chunksBy_length_eq {k : Nat} (hk : 0 < k) :
    ∀ (j : Nat) (l : List Nat), j * k < l.length → l.length ≤ (j + 1) * k →
      (chunksBy k l).length = j + 1 := by
  intro j
  induction j with
  | zero =>
    intro l h1 h2
    have hne : l ≠ [] := by
      intro he
      rw [he] at h1
      simp at h1
    rw [chunksBy, dif_neg (by push_neg; exact ⟨hne, by omega⟩)]
    rw [List.length_cons]
    have hdrop : (l.drop k).length = 0 := by
      simp only [List.length_drop]
      omega
    rw [List.length_eq_zero.mp hdrop, chunksBy, dif_pos (Or.inl rfl)]
    rfl
  | succ j ih =>
    intro l h1 h2
    have hne : l ≠ [] := by
      intro he
      rw [he] at h1
      simp at h1
    rw [chunksBy, dif_neg (by push_neg; exact ⟨hne, by omega⟩)]
    rw [List.length_cons]
    have hj1 : (j + 1) * k = j * k + k := by ring
    have hj2 : (j + 1 + 1) * k = (j + 1) * k + k := by ring
    rw [ih (l.drop k) (by simp only [List.length_drop]; omega)
      (by simp only [List.length_drop]; omega)]

theorem pack16_i16 {v : Nat} (h : v ≤ 65535) :
    v / 256 % 256 * 256 + v % 256 = v := by
  have h1 : v / 256 < 256 := by omega
  rw [Nat.mod_eq_of_lt h1]
  omega

theorem mkFragsM_shape {i N : Nat} {ps : List (List Nat)} {p : List Nat}
    (h : p ∈ mkFragsM i N ps) : ∃ r, p = iccSig ++ r := by
  induction ps generalizing i with
  | nil => simp [mkFragsM] at h
  | cons q pr ih =>
    rw [mkFragsM] at h
    rcases List.mem_cons.mp h with h1 | h1
    · exact ⟨[i % 256, N % 256] ++ q, by rw [h1, List.append_assoc]⟩
    · exact ih h1

theorem mkFragsM_length (i N : Nat) (ps : List (List Nat)) :
    (mkFragsM i N ps).length = ps.length := by
  induction ps generalizing i with
  | nil => rfl
  | cons q pr ih =>
    rw [mkFragsM]
    simp [ih]

theorem mkFragsM_byte13 {i N : Nat} {ps : List (List Nat)} {p : List Nat}
    (h : p ∈ mkFragsM i N ps) : byteAt p 13 = some (N % 256) := by
  induction ps generalizing i with
  | nil => simp [mkFragsM] at h
  | cons q pr ih =>
    rw [mkFragsM] at h
    rcases List.mem_cons.mp h with h1 | h1
    · rw [h1]
      rfl
    · exact ih h1

theorem mkFragsM_minlen {i N : Nat} {ps : List (List Nat)} {p : List Nat}
    (h : p ∈ mkFragsM i N ps) : 14 ≤ p.length := by
  induction ps generalizing i with
  | nil => simp [mkFragsM] at h
  | cons q pr ih =>
    rw [mkFragsM] at h
    rcases List.mem_cons.mp h with h1 | h1
    · rw [h1]
      simp [iccSig]
    · exact ih h1

theorem mkFragsM_eq_mkFrags {i N : Nat} {ps : List (List Nat)}
    (hi : i + ps.length ≤ 256) (hN : N ≤ 255) : mkFragsM i N ps = mkFrags i N ps := by
  induction ps generalizing i with
  | nil => rfl
  | cons q pr ih =>
    rw [mkFragsM, mkFrags]
    have hilt : i < 256 := by
      simp only [List.length_cons] at hi
      omega
    rw [Nat.mod_eq_of_lt hilt, Nat.mod_eq_of_lt (by omega : N < 256)]
    rw [ih (by simp only [List.length_cons] at hi; omega)]

theorem except_ok_bind {α β : Type} (a : α) (f : α → Except PyErr β) :
    (Except.ok a : Except PyErr α) >>= f = f a := rfl

theorem readSegStreamF_step {f : Nat} {body tail : List Nat} {a b : Nat}
    (hlen : body.length ≤ 65533) :
    readSegStreamF (f + 1) (a :: b :: (pack16 (body.length + 2) ++ (body ++ tail))) =
      (readSegStreamF f tail).map (fun segs => (a * 256 + b, body) :: segs) := by
  have hsh : pack16 (body.length + 2) ++ (body ++ tail) =
      (body.length + 2) / 256 % 256 :: ((body.length + 2) % 256 :: (body ++ tail)) := rfl
  rw [readSegStreamF, hsh, readSeg]
  rw [pack16_i16 (by omega)]
  have hn : body.length + 2 - 2 = body.length := by omega
  rw [hn]
  rw [if_neg (by simp only [List.length_append]; omega)]
  rw [List.take_left, List.drop_left]
  rfl

theorem iccLoop_length_ge (i N : Nat) (ms : List (List Nat)) :
    ms.length ≤ (iccLoop i N ms).length := by
  induction ms generalizing i with
  | nil => simp [iccLoop]
  | cons m rest ih =>
    rw [iccLoop]
    simp only [List.length_cons, List.length_append]
    have := ih (i + 1)
    omega

theorem readSegStreamF_iccLoop (ms : List (List Nat)) :
    ∀ (i N fuel : Nat), (∀ m ∈ ms, m.length ≤ 65519) → ms.length < fuel →
      readSegStreamF fuel (iccLoop i N ms) =
        .ok ((mkFragsM i N ms).map (fun p => ((0xFFE2 : Nat), p))) := by
  induction ms with
  | nil =>
    intro i N fuel _ _
    rw [iccLoop]
    cases fuel with
    | zero => rfl
    | succ f => rfl
  | cons m rest ih =>
    intro i N fuel hle hfuel
    cases fuel with
    | zero => simp at hfuel
    | succ f =>
      have hm : m.length ≤ 65519 := hle m (List.mem_cons_self _ _)
      have hbody : (iccSig ++ ([i % 256, N % 256] ++ m)).length = m.length + 14 := by
        simp [iccSig]
      have hshape : iccLoop i N (m :: rest) =
          255 :: 226 :: (pack16 ((iccSig ++ ([i % 256, N % 256] ++ m)).length + 2) ++
            ((iccSig ++ ([i % 256, N % 256] ++ m)) ++ iccLoop (i + 1) N rest)) := by
        rw [iccLoop, hbody]
        have harg : 2 + 14 + m.length = m.length + 14 + 2 := by omega
        rw [harg]
        simp [List.append_assoc]
      rw [hshape]
      rw [readSegStreamF_step (by rw [hbody]; omega)]
      rw [ih (i + 1) N f (fun q hq => hle q (List.mem_cons_of_mem _ hq))
        (by simp only [List.length_cons] at hfuel; omega)]
      rw [mkFragsM]
      rfl

theorem readSegStream_iccLoop (i N : Nat) (ms : List (List Nat))
    (h : ∀ m ∈ ms, m.length ≤ 65519) :
    readSegStream (iccLoop i N ms) =
      .ok ((mkFragsM i N ms).map (fun p => ((0xFFE2 : Nat), p))) := by
  rw [readSegStream]
  exact readSegStreamF_iccLoop ms i N _ h
    (Nat.lt_succ_of_le (iccLoop_length_ge i N ms))

theorem APP_icc (st : PState) (r : List Nat) (l : List (List Nat))
    (hicc : st.icclist = some l) :
    ∃ st', APP st 0xFFE2 (iccSig ++ r) = .ok st' ∧
      st'.icclist = some (l ++ [iccSig ++ r]) := by
  unfold APP
  rw [if_neg (by intro hc; exact absurd hc.1 (by decide))]
  rw [if_neg (by intro hc; exact absurd hc.1 (by decide))]
  rw [if_neg (by
    intro hc
    have h5 : (iccSig ++ r).take 5 = [73, 67, 67, 95, 80] := rfl
    rw [h5] at hc
    exact absurd hc.2 (by decide))]
  rw [if_pos ⟨rfl, rfl⟩]
  dsimp only
  rw [hicc]
  exact ⟨_, rfl, rfl⟩

theorem foldlM_APP_icc (frs : List (List Nat)) :
    ∀ (st : PState) (l : List (List Nat)), st.icclist = some l →
      (∀ p ∈ frs, ∃ r, p = iccSig ++ r) →
      ∃ st', List.foldlM (fun st mp => APP st mp.1 mp.2) st
          (frs.map (fun p => ((0xFFE2 : Nat), p))) = .ok st' ∧
        st'.icclist = some (l ++ frs) := by
  induction frs with
  | nil =>
    intro st l hicc _
    refine ⟨st, ?_, by rw [List.append_nil]; exact hicc⟩
    simp only [List.map_nil, List.foldlM_nil]
    rfl
  | cons p t ih =>
    intro st l hicc hshape
    obtain ⟨r, rfl⟩ := hshape p (List.mem_cons_self _ _)
    obtain ⟨st1, happ, hicc1⟩ := APP_icc st r l hicc
    simp only [List.map_cons, List.foldlM_cons]
    rw [happ]
    obtain ⟨st', hfold, hicc'⟩ :=
      ih st1 (l ++ [iccSig ++ r]) hicc1 (fun q hq => hshape q (List.mem_cons_of_mem _ hq))
    refine ⟨st', ?_, by rw [hicc', List.append_assoc]; rfl⟩
    exact hfold

/-- C2 amended: for every non-empty profile blob of at most 255 × 65519
bytes (at most 255 segments, so the one-byte sequence and total-count
fields are faithful), splitting on the save path into APP2/ICC_PROFILE
segments and feeding them through the open-path APP2 handler and the
frame-header reassembly reproduces the blob byte-for-byte. -/
theorem icc_roundtrip_amended (blob : List Nat) (hne : blob ≠ [])
    (hlen : blob.length ≤ 255 * 65519) :
    roundTripICC blob = .ok (some blob) := by
  have hk : 0 < MAX_DATA_BYTES_IN_MARKER := by decide
  have hchunk_le : ∀ m ∈ chunksBy MAX_DATA_BYTES_IN_MARKER blob, m.length ≤ 65519 :=
    fun m hm => chunksBy_mem_le hm
  have hmsne : chunksBy MAX_DATA_BYTES_IN_MARKER blob ≠ [] := by
    rw [chunksBy, dif_neg (by push_neg; exact ⟨hne, by decide⟩)]
    exact List.cons_ne_nil _ _
  have hms_le : (chunksBy MAX_DATA_BYTES_IN_MARKER blob).length ≤ 255 :=
    chunksBy_length_le hk 255 blob hlen
  rw [roundTripICC, mkICCSegments]
  rw [readSegStream_iccLoop 1 _ _ hchunk_le]
  rw [except_ok_bind]
  obtain ⟨st', hfold, hicc'⟩ :=
    foldlM_APP_icc (mkFragsM 1 (chunksBy MAX_DATA_BYTES_IN_MARKER blob).length
        (chunksBy MAX_DATA_BYTES_IN_MARKER blob)) initState [] rfl
      (fun p hp => mkFragsM_shape hp)
  rw [hfold]
  rw [except_ok_bind]
  rw [hicc', Option.getD_some, List.nil_append]
  rw [mkFragsM_eq_mkFrags (by omega) hms_le]
  rw [fixup_mkFrags _ hmsne]
  rw [chunksBy_flatten hk blob]

/-- Witness for C2 amended at the 3-byte blob `[1, 2, 3]`. -/
theorem icc_roundtrip_amended_witness :
    roundTripICC [1, 2, 3] = .ok (some [1, 2, 3]) :=
  icc_roundtrip_amended [1, 2, 3] (by decide) (by norm_num)

/-- C2 counterexample to the claim as stated: a blob of 255 × 65519 + 1
bytes needs 256 segments, so the one-byte total-count field wraps to 0 and
reassembly records an absent profile instead of reproducing the blob. -/
theorem icc_roundtrip_overflow :
    roundTripICC (List.replicate 16707346 0) = .ok none ∧
    (Except.ok (none : Option (List Nat)) : Except PyErr (Option (List Nat))) ≠
      .ok (some (List.replicate 16707346 0)) := by
  constructor
  · have hk : 0 < MAX_DATA_BYTES_IN_MARKER := by decide
    have hlen256 :
        (chunksBy MAX_DATA_BYTES_IN_MARKER (List.replicate 16707346 (0 : Nat))).length =
          256 := by
      have := chunksBy_length_eq hk 255 (List.replicate 16707346 (0 : Nat))
        (by simp only [List.length_replicate]; norm_num [MAX_DATA_BYTES_IN_MARKER])
        (by simp only [List.length_replicate]; norm_num [MAX_DATA_BYTES_IN_MARKER])
      omega
    have hchunk_le : ∀ m ∈ chunksBy MAX_DATA_BYTES_IN_MARKER
        (List.replicate 16707346 (0 : Nat)), m.length ≤ 65519 :=
      fun m hm => chunksBy_mem_le hm
    rw [roundTripICC, mkICCSegments]
    rw [readSegStream_iccLoop 1 _ _ hchunk_le]
    rw [except_ok_bind]
    obtain ⟨st', hfold, hicc'⟩ :=
      foldlM_APP_icc (mkFragsM 1
          (chunksBy MAX_DATA_BYTES_IN_MARKER (List.replicate 16707346 0)).length
          (chunksBy MAX_DATA_BYTES_IN_MARKER (List.replicate 16707346 0))) initState [] rfl
        (fun p hp => mkFragsM_shape hp)
    rw [hfold]
    rw [except_ok_bind]
    rw [hicc', Option.getD_some, List.nil_append]
    have hfraglen :
        (mkFragsM 1
          (chunksBy MAX_DATA_BYTES_IN_MARKER (List.replicate 16707346 (0 : Nat))).length
          (chunksBy MAX_DATA_BYTES_IN_MARKER (List.replicate 16707346 0))).length = 256 := by
      rw [mkFragsM_length, hlen256]
    apply fixup_mismatch_none
    · intro he
      rw [he] at hfraglen
      simp at hfraglen
    · exact fun p hp => mkFragsM_minlen hp
    · match hs : List.insertionSort bytesLe (mkFragsM 1
          (chunksBy MAX_DATA_BYTES_IN_MARKER (List.replicate 16707346 (0 : Nat))).length
          (chunksBy MAX_DATA_BYTES_IN_MARKER (List.replicate 16707346 0))) with
      | [] =>
        exfalso
        have hpl := (List.perm_insertionSort bytesLe (mkFragsM 1
            (chunksBy MAX_DATA_BYTES_IN_MARKER (List.replicate 16707346 (0 : Nat))).length
            (chunksBy MAX_DATA_BYTES_IN_MARKER (List.replicate 16707346 0)))).length_eq
        rw [hs, hfraglen] at hpl
        simp at hpl
      | f :: rest =>
        have hf : f ∈ mkFragsM 1
            (chunksBy MAX_DATA_BYTES_IN_MARKER (List.replicate 16707346 (0 : Nat))).length
            (chunksBy MAX_DATA_BYTES_IN_MARKER (List.replicate 16707346 0)) :=
          (List.mem_insertionSort bytesLe).mp (hs ▸ List.mem_cons_self f rest)
        have hb := mkFragsM_byte13 hf
        rw [hlen256] at hb
        simp only [List.headD_cons]
        rw [byteAtD, hb, hfraglen]
        decide
  · intro h
    injection h with h1
    cases h1

end Jpeg
